import Mathlib

/-!
# Crypto-Demo: the virtual trading ledger of `app.js`

A shallow embedding of the state-changing code of `src/app.js` (the global
`state`, the confirm-trade click handler, the reset click handler,
`renderBalances`, `loadMarket` and `loadState`) together with theorems about it.

Conventions of the embedding.

* JavaScript numbers are read in two ways. The handlers are embedded over exact
  rationals (`ℚ`), where every quantity, price and balance is a finite number
  and the four operations are exact; this reading serves the claims that say
  which guards the code takes and which expressions it evaluates (C1, C4, C5,
  C7, C9, C10). Division by zero is `0` in `ℚ`; it can only occur in the buy
  branch when the stored quantity is the negative of the traded one, and no
  theorem relies on its value. The confirm-trade handler, the reset handler and
  the price refresh are embedded a second time, in namespace `IEEE`, over `F64`:
  IEEE 754 double precision with `NaN`, the infinities, rounding to nearest
  (ties to even) and overflow; this reading serves the claims that depend on
  what doubles do (C2, C3, C6).
* A JavaScript object used as a dictionary (`holdings`, `lastPrices`) is an
  association list in insertion order: reading a key is `lookup`, assigning to
  a key is `assign` (overwrite in place, or append a new key) and `delete` is
  `remove`. The keys are asset ids of the price feed; property names inherited
  from `Object.prototype` are not among them.
* The global `state` is passed explicitly; an event handler is a function from
  the state before the event to the state after it, paired with the message it
  alerts, if any. Writes to the DOM and to `localStorage` are not part of the
  ledger state and are left out of the handlers.
* `loadState` assigns whatever `JSON.parse` returns, so there the variable
  `state` ranges over all JSON values (`JSValue`), and `State.toValue` gives the
  value that stands for a ledger state. The built-in `JSON.parse` is a
  recursive-descent parser of the JSON grammar; a thrown exception is an
  `Except.error`.
-/

namespace CryptoDemo

/-! ## Configuration -/

/-- `const STARTING_USD = 10000;` -/
def STARTING_USD : ℚ := 10000

/-- `const LOCAL_KEY = "crypto_demo_state_v1";` -/
def LOCAL_KEY : String := "crypto_demo_state_v1"

/-! ## Dictionaries -/

/-- The value stored under key `k` (`obj[k]`), `none` when the key is absent. -/
def lookup {α : Type} (k : String) : List (String × α) → Option α
  | [] => none
  | (k', v) :: rest => if k' = k then some v else lookup k rest

/-- The assignment `obj[k] = v`: overwrites the entry of an existing key where
it stands, appends a new key at the end. -/
def assign {α : Type} (k : String) (v : α) : List (String × α) → List (String × α)
  | [] => [(k, v)]
  | (k', v') :: rest => if k' = k then (k, v) :: rest else (k', v') :: assign k v rest

/-- The statement `delete obj[k]`. -/
def remove {α : Type} (k : String) (m : List (String × α)) : List (String × α) :=
  m.filter (fun e => decide (e.1 ≠ k))

/-! ## Data model -/

/-- An entry of `state.holdings`: `{symbol, name, qty, avgPrice}`. -/
structure Holding where
  symbol : String
  name : String
  qty : ℚ
  avgPrice : ℚ
deriving DecidableEq

/-- An entry of `state.history`: `{ts, type, id, symbol, qty, price, cost}`. -/
structure Order where
  ts : Nat
  type : String
  id : String
  symbol : String
  qty : ℚ
  price : ℚ
  cost : ℚ
deriving DecidableEq

/-- The global `state` object. -/
structure State where
  cash : ℚ
  holdings : List (String × Holding)
  history : List Order
  lastPrices : List (String × ℚ)
  currency : String
deriving DecidableEq

/-- The object stored in `currentTrade` by `openTradeModal`:
`{id, symbol, name, price}`. -/
structure Trade where
  id : String
  symbol : String
  name : String
  price : ℚ
deriving DecidableEq

/-- The initial value of `state` (lines 10-16). -/
def defaultState : State :=
  { cash := STARTING_USD, holdings := [], history := [], lastPrices := [], currency := "usd" }

/-- What a click handler leaves behind: the state after it and the message it
alerted (`none` when it ran to its end without an alert). -/
structure Outcome where
  state : State
  alert : Option String
deriving DecidableEq

/-! ## The confirm-trade handler (lines 129-157) -/

/-- The click handler of `confirmTradeBtn`. `currentTrade` is the module
variable of that name (`none` for `null`), `type` is `tradeTypeEl.value`, `qty`
is `Number(tradeAmountEl.value)` and `now` is `Date.now()`. -/
def confirmTrade (state : State) (currentTrade : Option Trade) (type : String) (qty : ℚ)
    (now : Nat) : Outcome :=
  match currentTrade with
  | none => { state := state, alert := some "Enter a valid amount" }
  | some t =>
    if qty ≤ 0 then { state := state, alert := some "Enter a valid amount" }
    else
      let cost := qty * t.price
      if type = "buy" then
        if cost > state.cash then { state := state, alert := some "Not enough cash" }
        else
          let h : Holding :=
            match lookup t.id state.holdings with
            | some h => h
            | none => { symbol := t.symbol, name := t.name, qty := 0, avgPrice := 0 }
          let totalBefore := h.qty * h.avgPrice
          let newQty := h.qty + qty
          let h1 : Holding := { h with qty := newQty, avgPrice := (totalBefore + cost) / newQty }
          { state :=
              { state with
                cash := state.cash - cost
                holdings := assign t.id h1 state.holdings
                history :=
                  { ts := now, type := "BUY", id := t.id, symbol := t.symbol, qty := qty,
                    price := t.price, cost := cost } :: state.history }
            alert := none }
      else
        match lookup t.id state.holdings with
        | none => { state := state, alert := some "Not enough coin to sell" }
        | some h =>
          if h.qty < qty then { state := state, alert := some "Not enough coin to sell" }
          else
            let h1 : Holding := { h with qty := h.qty - qty }
            { state :=
                { state with
                  cash := state.cash + cost
                  holdings :=
                    if h1.qty = 0 then remove t.id state.holdings
                    else assign t.id h1 state.holdings
                  history :=
                    { ts := now, type := "SELL", id := t.id, symbol := t.symbol, qty := qty,
                      price := t.price, cost := cost } :: state.history }
              alert := none }

/-! ## The reset handler (lines 189-193) and the price refresh (lines 67-108) -/

/-- A row of the market listing, as far as the ledger reads it:
`{id, current_price}`. -/
structure Coin where
  id : String
  current_price : ℚ
deriving DecidableEq

/-- The effect of `loadMarket` on the state once the listing `data` has arrived:
`data.forEach(c => state.lastPrices[c.id] = c.current_price)`. -/
def loadMarket (state : State) (data : List Coin) : State :=
  { state with
    lastPrices := data.foldl (fun m c => assign c.id c.current_price m) state.lastPrices }

/-- The click handler of `resetBtn`; `confirmed` is the answer of `confirm(...)`. -/
def resetDemo (state : State) (confirmed : Bool) : State :=
  if !confirmed then state
  else
    { cash := STARTING_USD, holdings := [], history := [], lastPrices := [],
      currency := state.currency }

/-! ## `renderBalances` (lines 160-186) -/

/-- The loop of `renderBalances` over `Object.entries(state.holdings)`: the
running total `pv` and the values `val` written into the portfolio list. -/
def portfolioLoop (lastPrices : List (String × ℚ)) :
    List (String × Holding) → ℚ × List ℚ → ℚ × List ℚ
  | [], acc => acc
  | (id, h) :: rest, (pv, rows) =>
    let price := match lookup id lastPrices with
      | some p => if p = 0 then 0 else p
      | none => 0
    let val := h.qty * price
    portfolioLoop lastPrices rest (pv + val, rows ++ [val])

/-- What `renderBalances` shows: the cash balance, the portfolio value, the
value of each holding, and the at most 50 most recent orders. -/
structure Rendered where
  cashBalance : ℚ
  portfolioValue : ℚ
  portfolioList : List ℚ
  historyList : List Order
deriving DecidableEq

/-- The function `renderBalances`: the state it leaves and what it shows. It
contains no assignment to `state` or to anything reachable from it. -/
def renderBalances (state : State) : State × Rendered :=
  let r := portfolioLoop state.lastPrices state.holdings (0, [])
  (state,
    { cashBalance := state.cash, portfolioValue := r.1, portfolioList := r.2,
      historyList := state.history.take 50 })

/-! ## `localStorage`, `JSON.parse` and `loadState` (lines 19-23) -/

/-- A JavaScript value as `JSON.parse` can return it. -/
inductive JSValue where
  | null : JSValue
  | bool (b : Bool) : JSValue
  | num (q : ℚ) : JSValue
  | str (s : String) : JSValue
  | arr (items : List JSValue) : JSValue
  | obj (props : List (String × JSValue)) : JSValue

/-- The exceptions of the parser: a `SyntaxError` for text that is not JSON, and
a `RangeError` when the recursion budget handed to the parser runs out. -/
inductive JSError where
  | syntaxError
  | rangeError
deriving DecidableEq

/-- The double quote. -/
def dquote : Char := Char.ofNat 34

/-- The reverse solidus that starts an escape. -/
def escapeChar : Char := Char.ofNat 92

/-- JSON white space: space, tab, line feed, carriage return. -/
def isJsonSpace (c : Char) : Bool :=
  c.toNat = 32 || c.toNat = 9 || c.toNat = 10 || c.toNat = 13

/-- Drops leading JSON white space. -/
def skipSpace : List Char → List Char
  | [] => []
  | c :: cs => if isJsonSpace c then skipSpace cs else c :: cs

/-- Splits off the longest run of decimal digits at the front. -/
def takeDigits : List Char → List Char × List Char
  | [] => ([], [])
  | c :: cs =>
    if c.isDigit then ((c :: (takeDigits cs).1), (takeDigits cs).2) else ([], c :: cs)

/-- The number written by a run of decimal digits. -/
def digitsValue (ds : List Char) : Nat :=
  ds.foldl (fun n c => 10 * n + (c.toNat - 48)) 0

/-- The value of a hexadecimal digit. -/
def hexValue (c : Char) : Option Nat :=
  if c.isDigit then some (c.toNat - 48)
  else if 97 ≤ c.toNat ∧ c.toNat ≤ 102 then some (c.toNat - 87)
  else if 65 ≤ c.toNat ∧ c.toNat ≤ 70 then some (c.toNat - 55)
  else none

/-- The code written by the four hexadecimal digits of a `u` escape. -/
def hex4 (a b c d : Char) : Option Nat :=
  match hexValue a, hexValue b, hexValue c, hexValue d with
  | some w, some x, some y, some z => some (((w * 16 + x) * 16 + y) * 16 + z)
  | _, _, _, _ => none

/-- The optional fraction `. [0-9]+` of a JSON number: its digits and the text
after it, `none` when a dot is not followed by a digit. -/
def takeFraction : List Char → Option (List Char × List Char)
  | [] => some ([], [])
  | c :: r =>
    if c = '.' then (if (takeDigits r).1 = [] then none else some (takeDigits r))
    else some ([], c :: r)

/-- The optional exponent `[eE] [+-]? [0-9]+` of a JSON number: whether it is
negative, its size (`0` when there is no exponent) and the text after it, `none`
when the `e` is not followed by a digit. -/
def takeExponent : List Char → Option (Bool × Nat × List Char)
  | [] => some (false, 0, [])
  | c :: r =>
    if c = 'e' ∨ c = 'E' then
      let digits := takeDigits (if r.head? = some '-' ∨ r.head? = some '+' then r.tail else r)
      if digits.1 = [] then none
      else some (decide (r.head? = some '-'), digitsValue digits.1, digits.2)
    else some (false, 0, c :: r)

/-- A JSON number, `-? (0 | [1-9][0-9]*) (. [0-9]+)? ([eE] [+-]? [0-9]+)?`, read
as the exact rational it writes. -/
def parseNumber (cs : List Char) : Except JSError (ℚ × List Char) :=
  let neg : Bool := decide (cs.head? = some '-')
  let ip := takeDigits (if neg then cs.tail else cs)
  if ip.1 = [] ∨ (ip.1.head? = some '0' ∧ ip.1.length ≠ 1) then .error .syntaxError
  else
    match takeFraction ip.2 with
    | none => .error .syntaxError
    | some (fd, cs2) =>
      match takeExponent cs2 with
      | none => .error .syntaxError
      | some (expNeg, e, rest) =>
        let mantissa : ℚ := (digitsValue (ip.1 ++ fd) : ℚ) / (10 : ℚ) ^ fd.length
        let signed : ℚ := if neg then -mantissa else mantissa
        .ok (if expNeg then signed / (10 : ℚ) ^ e else signed * (10 : ℚ) ^ e, rest)

/-- The character written by a one-letter escape, `none` for a letter that
starts no escape. -/
def simpleEscape (e : Char) : Option Char :=
  if e = dquote then some dquote
  else if e = escapeChar then some escapeChar
  else if e = '/' then some '/'
  else if e = 'b' then some (Char.ofNat 8)
  else if e = 'f' then some (Char.ofNat 12)
  else if e = 'n' then some (Char.ofNat 10)
  else if e = 'r' then some (Char.ofNat 13)
  else if e = 't' then some (Char.ofNat 9)
  else none

/-- The rest of a JSON string after its opening quote: the characters up to the
closing quote with the escapes resolved, and the text after the closing quote.
`acc` holds the characters read so far, last first. A `u` escape is read as the
character of that code (the halves of a surrogate pair, which `Char` does not
have, as the character of code 0). -/
def stringBody : List Char → List Char → Except JSError (String × List Char)
  | [], _ => .error .syntaxError
  | c :: cs, acc =>
    if c = dquote then .ok (String.mk acc.reverse, cs)
    else if c = escapeChar then
      match cs with
      | [] => .error .syntaxError
      | e :: cs1 =>
        if e = 'u' then
          match cs1 with
          | a :: b :: c2 :: d :: cs2 =>
            match hex4 a b c2 d with
            | some n => stringBody cs2 (Char.ofNat n :: acc)
            | none => .error .syntaxError
          | _ => .error .syntaxError
        else
          match simpleEscape e with
          | some x => stringBody cs1 (x :: acc)
          | none => .error .syntaxError
    else if c.toNat < 32 then .error .syntaxError
    else stringBody cs (c :: acc)

/-- Reads the literal `word` at the front of the text. -/
def expectWord (word : List Char) (v : JSValue) (cs : List Char) :
    Except JSError (JSValue × List Char) :=
  if cs.take word.length = word then .ok (v, cs.drop word.length) else .error .syntaxError

mutual

/-- A JSON value at the front of the text, after optional white space. -/
def parseValue : Nat → List Char → Except JSError (JSValue × List Char)
  | 0, _ => .error .rangeError
  | fuel + 1, cs =>
    match skipSpace cs with
    | [] => .error .syntaxError
    | c :: rest =>
      if c = Char.ofNat 123 then
        match skipSpace rest with
        | [] => .error .syntaxError
        | c1 :: rest1 =>
          if c1 = Char.ofNat 125 then .ok (.obj [], rest1) else parseMembers fuel (c1 :: rest1) []
      else if c = '[' then
        match skipSpace rest with
        | [] => .error .syntaxError
        | c1 :: rest1 =>
          if c1 = ']' then .ok (.arr [], rest1) else parseElements fuel (c1 :: rest1) []
      else if c = dquote then
        match stringBody rest [] with
        | .ok (s, rest1) => .ok (.str s, rest1)
        | .error e => .error e
      else if c = 't' then expectWord ['t', 'r', 'u', 'e'] (.bool true) (c :: rest)
      else if c = 'f' then expectWord ['f', 'a', 'l', 's', 'e'] (.bool false) (c :: rest)
      else if c = 'n' then expectWord ['n', 'u', 'l', 'l'] .null (c :: rest)
      else
        match parseNumber (c :: rest) with
        | .ok (q, rest1) => .ok (.num q, rest1)
        | .error e => .error e

/-- The elements of an array after `[` or after a comma, up to the closing `]`;
`acc` holds the elements read so far, last first. -/
def parseElements : Nat → List Char → List JSValue → Except JSError (JSValue × List Char)
  | 0, _, _ => .error .rangeError
  | fuel + 1, cs, acc =>
    match parseValue fuel cs with
    | .error e => .error e
    | .ok (v, rest) =>
      match skipSpace rest with
      | [] => .error .syntaxError
      | c :: rest1 =>
        if c = ',' then parseElements fuel rest1 (v :: acc)
        else if c = ']' then .ok (.arr (v :: acc).reverse, rest1)
        else .error .syntaxError

/-- The members of an object after the opening brace or after a comma, up to the
closing brace; `acc` holds the properties read so far. A repeated key keeps its
place and takes the later value. -/
def parseMembers : Nat → List Char → List (String × JSValue) →
    Except JSError (JSValue × List Char)
  | 0, _, _ => .error .rangeError
  | fuel + 1, cs, acc =>
    match skipSpace cs with
    | [] => .error .syntaxError
    | q :: rest =>
      if q = dquote then
        match stringBody rest [] with
        | .error e => .error e
        | .ok (key, rest1) =>
          match skipSpace rest1 with
          | [] => .error .syntaxError
          | colon :: rest2 =>
            if colon = ':' then
              match parseValue fuel rest2 with
              | .error e => .error e
              | .ok (v, rest3) =>
                match skipSpace rest3 with
                | [] => .error .syntaxError
                | c :: rest4 =>
                  if c = ',' then parseMembers fuel rest4 (assign key v acc)
                  else if c = Char.ofNat 125 then .ok (.obj (assign key v acc), rest4)
                  else .error .syntaxError
            else .error .syntaxError
      else .error .syntaxError

end

/-- The built-in `JSON.parse` on a string: the value the text writes, or the
exception it throws. Numbers are exact rationals. The recursion budget
`2 * length + 2` is never exhausted (`JSON.parse_ne_rangeError`). -/
def JSON.parse (text : String) : Except JSError JSValue :=
  match parseValue (2 * text.length + 2) text.toList with
  | .error e => .error e
  | .ok (v, rest) => if skipSpace rest = [] then .ok v else .error .syntaxError

/-- A parser outcome on a text of `n` characters is in order: it either
consumed at least one character or is a `SyntaxError`. -/
def Good {α : Type} (n : Nat) : Except JSError (α × List Char) → Prop
  | .ok (_, rest) => rest.length < n
  | .error e => e = .syntaxError

/-- The JavaScript object of a holding. -/
def Holding.toValue (h : Holding) : JSValue :=
  .obj [("symbol", .str h.symbol), ("name", .str h.name), ("qty", .num h.qty),
    ("avgPrice", .num h.avgPrice)]

/-- The JavaScript object of an order. -/
def Order.toValue (o : Order) : JSValue :=
  .obj [("ts", .num o.ts), ("type", .str o.type), ("id", .str o.id),
    ("symbol", .str o.symbol), ("qty", .num o.qty), ("price", .num o.price),
    ("cost", .num o.cost)]

/-- The JavaScript object that the variable `state` holds for a ledger state. -/
def State.toValue (s : State) : JSValue :=
  .obj [("cash", .num s.cash),
    ("holdings", .obj (s.holdings.map (fun e => (e.1, e.2.toValue)))),
    ("history", .arr (s.history.map Order.toValue)),
    ("lastPrices", .obj (s.lastPrices.map (fun e => (e.1, JSValue.num e.2)))),
    ("currency", .str s.currency)]

/-- The function `loadState`. `localStorage` is the content of the storage, key
by key (`getItem` answers `null` for a missing key), and `state` is the value of
the variable `state` before the call; the result is the value of `state` after
the call, or the exception that leaves `loadState`. -/
def loadState (localStorage : List (String × String)) (state : JSValue) :
    Except JSError JSValue :=
  match lookup LOCAL_KEY localStorage with
  | none => .ok state
  | some raw => if raw = "" then .ok state else JSON.parse raw

/-- The text that `saveState` stores for the default initial state. -/
def defaultSnapshot : String :=
  "\x7b\"cash\":10000,\"holdings\":\x7b\x7d,\"history\":[],\"lastPrices\":\x7b\x7d,\"currency\":\"usd\"\x7d"

/-! ## Quantities named by the claims -/

/-- A buy of a sequence of buys on one asset, with the exact values of its
quantity and unit price. -/
structure BuyRequest where
  qty : ℚ
  price : ℚ
  now : Nat
deriving DecidableEq

/-- The quantity held of asset `id`, `0` when the asset is not held. -/
def heldQty (id : String) (state : State) : ℚ :=
  match lookup id state.holdings with
  | some h => h.qty
  | none => 0

/-- The average price of the holding of asset `id`, `0` when the asset is not held. -/
def heldAvgPrice (id : String) (state : State) : ℚ :=
  match lookup id state.holdings with
  | some h => h.avgPrice
  | none => 0

/-- The total spent by a sequence of buys, `Σ qᵢ·pᵢ`. -/
def totalSpent (reqs : List BuyRequest) : ℚ :=
  (reqs.map (fun r => r.qty * r.price)).sum

/-- The total quantity bought by a sequence of buys, `Σ qᵢ`. -/
def totalQty (reqs : List BuyRequest) : ℚ :=
  (reqs.map (fun r => r.qty)).sum

/-- The price used for a held asset in the portfolio value: the entry of the
price map, `0` when the map has no entry for the asset. -/
def priceOrZero (lastPrices : List (String × ℚ)) (id : String) : ℚ :=
  match lookup id lastPrices with
  | some p => p
  | none => 0

/-- The sum over every held asset of `qty * price`, a missing price counting as `0`. -/
def holdingsValue (holdings : List (String × Holding)) (lastPrices : List (String × ℚ)) : ℚ :=
  (holdings.map (fun e => e.2.qty * priceOrZero lastPrices e.1)).sum

/-! ## The worked example of the specification -/

/-- The trade opened on Bitcoin at unit price `price`. -/
def btcAt (price : ℚ) : Trade :=
  { id := "bitcoin", symbol := "btc", name := "Bitcoin", price := price }

/-- The two buys of the example as buy requests. -/
def exampleBuys : List BuyRequest :=
  [{ qty := 2, price := 100, now := 1 }, { qty := 2, price := 200, now := 2 }]

/-- The state of the example after BUY 2 @ 100. -/
def exampleState1 : State :=
  { cash := 9800
    holdings := [("bitcoin", { symbol := "btc", name := "Bitcoin", qty := 2, avgPrice := 100 })]
    history :=
      [{ ts := 1, type := "BUY", id := "bitcoin", symbol := "btc", qty := 2, price := 100,
         cost := 200 }]
    lastPrices := []
    currency := "usd" }

/-- The state of the example after BUY 2 @ 100 and BUY 2 @ 200. -/
def exampleState2 : State :=
  { cash := 9400
    holdings := [("bitcoin", { symbol := "btc", name := "Bitcoin", qty := 4, avgPrice := 150 })]
    history :=
      [{ ts := 2, type := "BUY", id := "bitcoin", symbol := "btc", qty := 2, price := 200,
         cost := 400 },
       { ts := 1, type := "BUY", id := "bitcoin", symbol := "btc", qty := 2, price := 100,
         cost := 200 }]
    lastPrices := []
    currency := "usd" }

/-- The state of the example after the final SELL 4 @ 300. -/
def exampleState3 : State :=
  { cash := 10600
    holdings := []
    history :=
      [{ ts := 3, type := "SELL", id := "bitcoin", symbol := "btc", qty := 4, price := 300,
         cost := 1200 },
       { ts := 2, type := "BUY", id := "bitcoin", symbol := "btc", qty := 2, price := 200,
         cost := 400 },
       { ts := 1, type := "BUY", id := "bitcoin", symbol := "btc", qty := 2, price := 100,
         cost := 200 }]
    lastPrices := []
    currency := "usd" }

/-! ## JavaScript numbers as IEEE 754 doubles -/

/-- A JavaScript number: `NaN`, an infinity with its sign, or a finite double,
given by its exact value. The two zeros are identified: the sign of a zero shows
only in a division by it, and the one divisor of the handlers, `h.qty` after
`h.qty += qty` with `qty <= 0` false, is never a negative zero. -/
inductive F64 where
  | nan : F64
  | inf (negative : Bool) : F64
  | fin (q : ℚ) : F64
deriving DecidableEq

namespace F64

/-- The power of two `2 ^ e` as a rational. -/
def twoPow (e : Int) : ℚ :=
  if 0 ≤ e then ((2 ^ e.toNat : ℕ) : ℚ) else 1 / ((2 ^ (-e).toNat : ℕ) : ℚ)

/-- The binary logarithm of a positive natural number, rounded down; `fuel`
bounds the number of halvings. -/
def log2Fuel : Nat → Nat → Nat
  | 0, _ => 0
  | fuel + 1, n => if n < 2 then 0 else log2Fuel fuel (n / 2) + 1

/-- The exponent of a positive rational: the `e` with `2 ^ e ≤ x < 2 ^ (e + 1)`. -/
def exponent (x : ℚ) : Int :=
  let d : Int := (log2Fuel x.num.natAbs x.num.natAbs : Int) - (log2Fuel x.den x.den : Int)
  if twoPow d ≤ x then d else d - 1

/-- Rounds a positive rational to the nearest double, ties to the even
significand: the spacing of the doubles around `x` is `2 ^ (e - 52)`, with `e`
the exponent of `x` and at least `-1022`; a result of `2 ^ 1024` or more is
`Infinity`. -/
def roundPos (x : ℚ) : F64 :=
  let ulp : ℚ := twoPow (max (exponent x) (-1022) - 52)
  let n : Int := ⌊x / ulp⌋
  let rest : ℚ := x / ulp - n
  let m : Int :=
    if rest < 1 / 2 then n
    else if 1 / 2 < rest then n + 1
    else if n % 2 = 0 then n else n + 1
  if twoPow 1024 ≤ (m : ℚ) * ulp then inf false else fin ((m : ℚ) * ulp)

/-- The unary minus. -/
def neg : F64 → F64
  | nan => nan
  | inf s => inf (!s)
  | fin q => fin (-q)

/-- The double nearest to an exact value. -/
def round (x : ℚ) : F64 :=
  if x = 0 then fin 0 else if 0 < x then roundPos x else neg (roundPos (-x))

/-- The operator `+`. -/
def add : F64 → F64 → F64
  | fin a, fin b => round (a + b)
  | fin _, inf s => inf s
  | inf s, fin _ => inf s
  | inf s, inf t => if s = t then inf s else nan
  | _, _ => nan

/-- The operator `-`. -/
def sub (x y : F64) : F64 := add x (neg y)

/-- The operator `*`. -/
def mul : F64 → F64 → F64
  | fin a, fin b => round (a * b)
  | fin a, inf s => if a = 0 then nan else inf (s != decide (a < 0))
  | inf s, fin b => if b = 0 then nan else inf (s != decide (b < 0))
  | inf s, inf t => inf (s != t)
  | _, _ => nan

/-- The operator `/`. -/
def div : F64 → F64 → F64
  | fin a, fin b =>
    if b = 0 then (if a = 0 then nan else inf (decide (a < 0))) else round (a / b)
  | fin _, inf _ => fin 0
  | inf s, fin b => inf (s != decide (b < 0))
  | _, _ => nan

/-- The comparison `<`, false when an operand is `NaN`. -/
def lt : F64 → F64 → Bool
  | fin a, fin b => decide (a < b)
  | fin _, inf s => !s
  | inf s, fin _ => s
  | inf s, inf t => s && !t
  | _, _ => false

/-- The comparison `<=`, false when an operand is `NaN`. -/
def le : F64 → F64 → Bool
  | fin a, fin b => decide (a ≤ b)
  | fin _, inf s => !s
  | inf s, fin _ => s
  | inf s, inf t => s || !t
  | _, _ => false

/-- The comparison `===`, false when an operand is `NaN`. -/
def strictEq : F64 → F64 → Bool
  | fin a, fin b => decide (a = b)
  | inf s, inf t => s == t
  | _, _ => false

/-- The test `Number.isFinite`. -/
def isFinite : F64 → Bool
  | fin _ => true
  | _ => false

/-- The exact value `x` is a double: rounding leaves it as it is. -/
def Exact (x : ℚ) : Prop := round x = fin x

instance (x : ℚ) : Decidable (Exact x) := by
  unfold Exact
  infer_instance

end F64

/-! ## The handlers in double arithmetic -/

namespace IEEE

/-- `const STARTING_USD = 10000;` -/
def STARTING_USD : F64 := .fin 10000

/-- An entry of `state.holdings`: `{symbol, name, qty, avgPrice}`. -/
structure Holding where
  symbol : String
  name : String
  qty : F64
  avgPrice : F64
deriving DecidableEq

/-- An entry of `state.history`: `{ts, type, id, symbol, qty, price, cost}`. -/
structure Order where
  ts : Nat
  type : String
  id : String
  symbol : String
  qty : F64
  price : F64
  cost : F64
deriving DecidableEq

/-- The global `state` object. -/
structure State where
  cash : F64
  holdings : List (String × Holding)
  history : List Order
  lastPrices : List (String × F64)
  currency : String
deriving DecidableEq

/-- The object stored in `currentTrade` by `openTradeModal`:
`{id, symbol, name, price}`. -/
structure Trade where
  id : String
  symbol : String
  name : String
  price : F64
deriving DecidableEq

/-- The initial value of `state` (lines 10-16). -/
def defaultState : State :=
  { cash := STARTING_USD, holdings := [], history := [], lastPrices := [], currency := "usd" }

/-- What a click handler leaves behind: the state after it and the message it
alerted (`none` when it ran to its end without an alert). -/
structure Outcome where
  state : State
  alert : Option String
deriving DecidableEq

/-- The click handler of `confirmTradeBtn` (lines 129-157). `currentTrade` is
the module variable of that name (`none` for `null`), `type` is
`tradeTypeEl.value`, `qty` is `Number(tradeAmountEl.value)`, which is `NaN` for
a text that is no number, and `now` is `Date.now()`. -/
def confirmTrade (state : State) (currentTrade : Option Trade) (type : String) (qty : F64)
    (now : Nat) : Outcome :=
  match currentTrade with
  | none => { state := state, alert := some "Enter a valid amount" }
  | some t =>
    if F64.le qty (.fin 0) then { state := state, alert := some "Enter a valid amount" }
    else
      let cost := F64.mul qty t.price
      if type = "buy" then
        if F64.lt state.cash cost then { state := state, alert := some "Not enough cash" }
        else
          let h : Holding :=
            match lookup t.id state.holdings with
            | some h => h
            | none => { symbol := t.symbol, name := t.name, qty := .fin 0, avgPrice := .fin 0 }
          let totalBefore := F64.mul h.qty h.avgPrice
          let newQty := F64.add h.qty qty
          let h1 : Holding :=
            { h with qty := newQty, avgPrice := F64.div (F64.add totalBefore cost) newQty }
          { state :=
              { state with
                cash := F64.sub state.cash cost
                holdings := assign t.id h1 state.holdings
                history :=
                  { ts := now, type := "BUY", id := t.id, symbol := t.symbol, qty := qty,
                    price := t.price, cost := cost } :: state.history }
            alert := none }
      else
        match lookup t.id state.holdings with
        | none => { state := state, alert := some "Not enough coin to sell" }
        | some h =>
          if F64.lt h.qty qty then { state := state, alert := some "Not enough coin to sell" }
          else
            let h1 : Holding := { h with qty := F64.sub h.qty qty }
            { state :=
                { state with
                  cash := F64.add state.cash cost
                  holdings :=
                    if F64.strictEq h1.qty (.fin 0) then remove t.id state.holdings
                    else assign t.id h1 state.holdings
                  history :=
                    { ts := now, type := "SELL", id := t.id, symbol := t.symbol, qty := qty,
                      price := t.price, cost := cost } :: state.history }
              alert := none }

/-- A row of the market listing, as far as the ledger reads it:
`{id, current_price}`. -/
structure Coin where
  id : String
  current_price : F64
deriving DecidableEq

/-- The effect of `loadMarket` on the state once the listing `data` has arrived:
`data.forEach(c => state.lastPrices[c.id] = c.current_price)`. -/
def loadMarket (state : State) (data : List Coin) : State :=
  { state with
    lastPrices := data.foldl (fun m c => assign c.id c.current_price m) state.lastPrices }

/-- The click handler of `resetBtn`; `confirmed` is the answer of `confirm(...)`. -/
def resetDemo (state : State) (confirmed : Bool) : State :=
  if !confirmed then state
  else
    { cash := STARTING_USD, holdings := [], history := [], lastPrices := [],
      currency := state.currency }

/-- The events that change the ledger: a click on the confirm-trade button, a
click on the reset button, the arrival of a market listing, and a change of the
currency selector (`state.currency = currencySelect.value`). -/
inductive Event where
  | trade (currentTrade : Option Trade) (type : String) (qty : F64) (now : Nat)
  | reset (confirmed : Bool)
  | market (data : List Coin)
  | currency (value : String)
deriving DecidableEq

/-- The state after one event. -/
def step (state : State) : Event → State
  | .trade currentTrade type qty now => (confirmTrade state currentTrade type qty now).state
  | .reset confirmed => resetDemo state confirmed
  | .market data => loadMarket state data
  | .currency value => { state with currency := value }

/-- The state after a finite sequence of events, oldest first. -/
def run (state : State) (events : List Event) : State :=
  events.foldl step state

/-- The unit price of a trade attempt is not negative, `0 <= price` (other
events carry no trade price). -/
def Event.priceNonneg : Event → Bool
  | .trade (some t) _ _ _ => F64.le (.fin 0) t.price
  | _ => true

/-- The quantity of a trade attempt is a finite number (other events carry no
quantity). -/
def Event.qtyFinite : Event → Bool
  | .trade _ _ qty _ => qty.isFinite
  | _ => true

/-- A buy request of a sequence of buys on one asset. -/
structure BuyRequest where
  qty : F64
  price : F64
  now : Nat
deriving DecidableEq

/-- Runs a sequence of buy attempts on the asset `id` through `confirmTrade`,
oldest first: the final state when every attempt was accepted, `none` as soon
as one of them is rejected. -/
def buyAll (id symbol name : String) : State → List BuyRequest → Option State
  | state, [] => some state
  | state, r :: rest =>
    let o := confirmTrade state (some { id := id, symbol := symbol, name := name, price := r.price })
      "buy" r.qty r.now
    if o.alert = none then buyAll id symbol name o.state rest else none

/-- The average price of the holding of asset `id` after a sequence of buys that
was accepted in full. -/
def avgPriceAfter (id symbol name : String) (state : State) (reqs : List BuyRequest) :
    Option F64 :=
  match buyAll id symbol name state reqs with
  | none => none
  | some final =>
    match lookup id final.holdings with
    | none => none
    | some h => some h.avgPrice

/-- A buy request with finite quantity and price, given by their exact values. -/
def ofExact (r : CryptoDemo.BuyRequest) : BuyRequest :=
  { qty := .fin r.qty, price := .fin r.price, now := r.now }

/-- No operation of the average-price updates of a sequence of buys rounds:
starting from held quantity `Q` and total spent `T`, every product `q * p`,
every new quantity `Q + q`, every new total `T + q * p` and every new average
`(T + q * p) / (Q + q)` is a double. -/
def NoRounding (Q T : ℚ) : List CryptoDemo.BuyRequest → Prop
  | [] => True
  | r :: rest =>
    F64.Exact (r.qty * r.price) ∧ F64.Exact (Q + r.qty) ∧
      F64.Exact (T + r.qty * r.price) ∧
      F64.Exact ((T + r.qty * r.price) / (Q + r.qty)) ∧
      NoRounding (Q + r.qty) (T + r.qty * r.price) rest

/-- The trade opened on Bitcoin at unit price `price`. -/
def btcAt (price : F64) : Trade :=
  { id := "bitcoin", symbol := "btc", name := "Bitcoin", price := price }

/-- BUY 2 @ 100, BUY 2 @ 200, SELL 4 @ 300, clicked at times 1, 2 and 3. -/
def exampleEvents : List Event :=
  [.trade (some (btcAt (.fin 100))) "buy" (.fin 2) 1,
    .trade (some (btcAt (.fin 200))) "buy" (.fin 2) 2,
    .trade (some (btcAt (.fin 300))) "sell" (.fin 4) 3]

/-- The state after BUY 2 @ 100 and BUY 2 @ 200 from the initial state. -/
def exampleState2 : State :=
  { cash := .fin 9400
    holdings :=
      [("bitcoin", { symbol := "btc", name := "Bitcoin", qty := .fin 4, avgPrice := .fin 150 })]
    history :=
      [{ ts := 2, type := "BUY", id := "bitcoin", symbol := "btc", qty := .fin 2,
         price := .fin 200, cost := .fin 400 },
       { ts := 1, type := "BUY", id := "bitcoin", symbol := "btc", qty := .fin 2,
         price := .fin 100, cost := .fin 200 }]
    lastPrices := []
    currency := "usd" }

/-- BUY 1e200 @ 1e-200, SELL 1e200 @ 1e200, BUY 1e200 @ 1e200: three attempts
with finite quantities and positive prices. -/
def overflowEvents : List Event :=
  [.trade (some (btcAt (F64.round (1 / 10 ^ 200)))) "buy" (F64.round (10 ^ 200)) 1,
    .trade (some (btcAt (F64.round (10 ^ 200)))) "sell" (F64.round (10 ^ 200)) 2,
    .trade (some (btcAt (F64.round (10 ^ 200)))) "buy" (F64.round (10 ^ 200)) 3]

/-- BUY 1 @ 1, BUY 6 @ 10, BUY 1 @ 3. -/
def roundingBuys : List CryptoDemo.BuyRequest :=
  [{ qty := 1, price := 1, now := 1 }, { qty := 6, price := 10, now := 2 },
    { qty := 1, price := 3, now := 3 }]

/-- The same three buys in the order BUY 1 @ 1, BUY 1 @ 3, BUY 6 @ 10. -/
def roundingBuysPermuted : List CryptoDemo.BuyRequest :=
  [{ qty := 1, price := 1, now := 1 }, { qty := 1, price := 3, now := 3 },
    { qty := 6, price := 10, now := 2 }]

end IEEE

/-! ## Dictionary lemmas -/

theorem lookup_assign_self {α : Type} (k : String) (v : α) (m : List (String × α)) :
    lookup k (assign k v m) = some v := by
  induction m with
  | nil => simp [assign, lookup]
  | cons e rest ih =>
    obtain ⟨k', v'⟩ := e
    by_cases hk : k' = k
    · simp [assign, lookup, hk]
    · simp [assign, lookup, hk, ih]

theorem lookup_remove_self {α : Type} (k : String) (m : List (String × α)) :
    lookup k (remove k m) = none := by
  induction m with
  | nil => simp [remove, lookup]
  | cons e rest ih =>
    obtain ⟨k', v'⟩ := e
    by_cases hk : k' = k
    · simpa [remove, hk] using ih
    · simpa [remove, lookup, hk] using ih

/-! ## The parser consumes its input and stays within its recursion budget -/

theorem skipSpace_length_le (cs : List Char) : (skipSpace cs).length ≤ cs.length := by
  induction cs with
  | nil => simp [skipSpace]
  | cons c cs ih =>
    unfold skipSpace
    split_ifs
    · simp only [List.length_cons]; omega
    · exact le_refl _

theorem skipSpace_cons_length (cs rest : List Char) (c : Char) (h : skipSpace cs = c :: rest) :
    rest.length < cs.length := by
  have := skipSpace_length_le cs
  rw [h] at this
  simp only [List.length_cons] at this
  omega

theorem takeDigits_length (cs : List Char) :
    (takeDigits cs).1.length + (takeDigits cs).2.length = cs.length := by
  induction cs with
  | nil => simp [takeDigits]
  | cons c cs ih =>
    unfold takeDigits
    split_ifs
    · simp only [List.length_cons]; omega
    · simp

theorem takeFraction_length (cs fd rest : List Char) (h : takeFraction cs = some (fd, rest)) :
    rest.length ≤ cs.length := by
  cases cs with
  | nil =>
    simp only [takeFraction, Option.some.injEq, Prod.mk.injEq] at h
    simp [← h.2]
  | cons c r =>
    simp only [takeFraction] at h
    split_ifs at h with h1 h2
    · simp only [Option.some.injEq] at h
      have := takeDigits_length r
      rw [h] at this
      simp only [List.length_cons] at this ⊢
      omega
    · simp only [Option.some.injEq, Prod.mk.injEq] at h
      simp [← h.2]

theorem takeExponent_length (cs rest : List Char) (neg : Bool) (e : Nat)
    (h : takeExponent cs = some (neg, e, rest)) : rest.length ≤ cs.length := by
  cases cs with
  | nil =>
    simp only [takeExponent, Option.some.injEq, Prod.mk.injEq] at h
    simp [← h.2.2]
  | cons c r =>
    simp only [takeExponent] at h
    split_ifs at h with h1 h2 h3
    · simp only [Option.some.injEq, Prod.mk.injEq] at h
      have := takeDigits_length r.tail
      rw [← h.2.2]
      simp only [List.length_cons, List.length_tail] at this ⊢
      omega
    · simp only [Option.some.injEq, Prod.mk.injEq] at h
      have := takeDigits_length r
      rw [← h.2.2]
      simp only [List.length_cons] at this ⊢
      omega
    · simp only [Option.some.injEq, Prod.mk.injEq] at h
      simp [← h.2.2]

theorem Good.mono {α : Type} {m n : Nat} {r : Except JSError (α × List Char)}
    (h : Good m r) (hmn : m ≤ n) : Good n r := by
  cases r with
  | error e => exact h
  | ok p =>
    obtain ⟨v, rest⟩ := p
    exact lt_of_lt_of_le h hmn

theorem parseNumber_good (cs : List Char) : Good cs.length (parseNumber cs) := by
  unfold parseNumber
  simp only
  have hcs1 : (if (decide (cs.head? = some '-')) = true then cs.tail else cs).length ≤
      cs.length := by
    split_ifs
    · simp
    · exact le_refl _
  generalize (if (decide (cs.head? = some '-')) = true then cs.tail else cs) = cs1 at hcs1 ⊢
  have hd := takeDigits_length cs1
  by_cases h1 : (takeDigits cs1).1 = [] ∨
      ((takeDigits cs1).1.head? = some '0' ∧ (takeDigits cs1).1.length ≠ 1)
  · rw [if_pos h1]
    rfl
  rw [if_neg h1]
  push_neg at h1
  have hne : 0 < (takeDigits cs1).1.length := List.length_pos.mpr h1.1
  cases hf : takeFraction (takeDigits cs1).2 with
  | none => rfl
  | some fr =>
    obtain ⟨fd, cs2⟩ := fr
    have h2 := takeFraction_length _ _ _ hf
    dsimp only
    cases he : takeExponent cs2 with
    | none => rfl
    | some ex =>
      obtain ⟨expNeg, e, rest1⟩ := ex
      have h3 := takeExponent_length _ _ _ _ he
      show rest1.length < cs.length
      omega

theorem stringBody_good (n : Nat) :
    ∀ (cs acc : List Char), cs.length ≤ n → Good cs.length (stringBody cs acc) := by
  induction n using Nat.strong_induction_on with
  | _ n ih =>
    intro cs acc hn
    have ih1 : ∀ (cs1 acc1 : List Char) (m : Nat), cs1.length < n → cs1.length ≤ m →
        Good m (stringBody cs1 acc1) :=
      fun cs1 acc1 m hlt hm => Good.mono (ih cs1.length hlt cs1 acc1 (le_refl _)) hm
    match cs, hn with
    | [], _ =>
      rw [stringBody.eq_def]
      rfl
    | c :: cs, hn =>
      simp only [List.length_cons] at hn ⊢
      rw [stringBody.eq_def]
      simp only
      by_cases h1 : c = dquote
      · rw [if_pos h1]
        show cs.length < cs.length + 1
        omega
      rw [if_neg h1]
      by_cases h2 : c = escapeChar
      · rw [if_pos h2]
        match cs, hn with
        | [], _ => rfl
        | e :: cs1, hn =>
          simp only [List.length_cons] at hn ⊢
          by_cases h3 : e = 'u'
          · rw [if_pos h3]
            match cs1, hn with
            | a :: b :: c2 :: d :: cs2, hn =>
              simp only [List.length_cons] at hn ⊢
              cases hx : hex4 a b c2 d with
              | none => rfl
              | some k => exact ih1 cs2 _ _ (by omega) (by omega)
            | [], _ => rfl
            | [_], _ => rfl
            | [_, _], _ => rfl
            | [_, _, _], _ => rfl
          · rw [if_neg h3]
            cases hx : simpleEscape e with
            | none => rfl
            | some x => exact ih1 cs1 _ _ (by omega) (by omega)
      rw [if_neg h2]
      by_cases h3 : c.toNat < 32
      · rw [if_pos h3]
        rfl
      rw [if_neg h3]
      exact ih1 cs _ _ (by omega) (by omega)

theorem expectWord_good (word : List Char) (v : JSValue) (cs : List Char)
    (hw : 0 < word.length) : Good cs.length (expectWord word v cs) := by
  unfold expectWord
  by_cases h1 : cs.take word.length = word
  · rw [if_pos h1]
    show (cs.drop word.length).length < cs.length
    have h2 : (cs.take word.length).length = word.length := by rw [h1]
    simp only [List.length_take] at h2
    simp only [List.length_drop]
    omega
  · rw [if_neg h1]
    rfl

theorem parse_good (fuel : Nat) :
    (∀ cs, 2 * cs.length + 1 ≤ fuel → Good cs.length (parseValue fuel cs)) ∧
      (∀ cs acc, 2 * cs.length + 2 ≤ fuel → Good cs.length (parseElements fuel cs acc)) ∧
      (∀ cs acc, 2 * cs.length + 2 ≤ fuel → Good cs.length (parseMembers fuel cs acc)) := by
  induction fuel with
  | zero =>
    refine ⟨?_, ?_, ?_⟩
    · intro cs h; omega
    · intro cs acc h; omega
    · intro cs acc h; omega
  | succ f ih =>
    obtain ⟨ihV, ihE, ihM⟩ := ih
    refine ⟨?_, ?_, ?_⟩
    · intro cs hf
      rw [parseValue]
      cases hs : skipSpace cs with
      | nil => rfl
      | cons c rest0 =>
        have hl0 := skipSpace_cons_length cs rest0 c hs
        have hle := skipSpace_length_le cs
        rw [hs] at hle
        dsimp only
        by_cases h1 : c = Char.ofNat 123
        · rw [if_pos h1]
          cases hs1 : skipSpace rest0 with
          | nil => rfl
          | cons c1 rest1 =>
            have hl1 := skipSpace_length_le rest0
            rw [hs1] at hl1
            simp only [List.length_cons] at hl1
            dsimp only
            by_cases h2 : c1 = Char.ofNat 125
            · rw [if_pos h2]
              show rest1.length < cs.length
              omega
            · rw [if_neg h2]
              exact Good.mono (ihM (c1 :: rest1) [] (by simp only [List.length_cons]; omega))
                (by simp only [List.length_cons]; omega)
        rw [if_neg h1]
        by_cases h2 : c = '['
        · rw [if_pos h2]
          cases hs1 : skipSpace rest0 with
          | nil => rfl
          | cons c1 rest1 =>
            have hl1 := skipSpace_length_le rest0
            rw [hs1] at hl1
            simp only [List.length_cons] at hl1
            dsimp only
            by_cases h3 : c1 = ']'
            · rw [if_pos h3]
              show rest1.length < cs.length
              omega
            · rw [if_neg h3]
              exact Good.mono (ihE (c1 :: rest1) [] (by simp only [List.length_cons]; omega))
                (by simp only [List.length_cons]; omega)
        rw [if_neg h2]
        by_cases h3 : c = dquote
        · rw [if_pos h3]
          have := Good.mono (stringBody_good rest0.length rest0 [] (le_refl _)) (le_of_lt hl0)
          cases hb : stringBody rest0 [] with
          | error e => rw [hb] at this; exact this
          | ok p =>
            obtain ⟨s, rest1⟩ := p
            rw [hb] at this
            exact this
        rw [if_neg h3]
        simp only [List.length_cons] at hle
        by_cases h4 : c = 't'
        · rw [if_pos h4]
          exact Good.mono (expectWord_good _ _ _ (by simp)) hle
        rw [if_neg h4]
        by_cases h5 : c = 'f'
        · rw [if_pos h5]
          exact Good.mono (expectWord_good _ _ _ (by simp)) hle
        rw [if_neg h5]
        by_cases h6 : c = 'n'
        · rw [if_pos h6]
          exact Good.mono (expectWord_good _ _ _ (by simp)) hle
        rw [if_neg h6]
        have := Good.mono (parseNumber_good (c :: rest0)) hle
        cases hb : parseNumber (c :: rest0) with
        | error e => rw [hb] at this; exact this
        | ok p =>
          obtain ⟨q, rest1⟩ := p
          rw [hb] at this
          exact this
    · intro cs acc hf
      rw [parseElements]
      have hv := ihV cs (by omega)
      cases hp : parseValue f cs with
      | error e => rw [hp] at hv; exact hv
      | ok p =>
        obtain ⟨v, rest⟩ := p
        rw [hp] at hv
        have hv1 : rest.length < cs.length := hv
        dsimp only
        cases hs : skipSpace rest with
        | nil => rfl
        | cons c rest1 =>
          have hl1 := skipSpace_length_le rest
          rw [hs] at hl1
          simp only [List.length_cons] at hl1
          dsimp only
          by_cases h1 : c = ','
          · rw [if_pos h1]
            exact Good.mono (ihE rest1 (v :: acc) (by omega)) (by omega)
          rw [if_neg h1]
          by_cases h2 : c = ']'
          · rw [if_pos h2]
            show rest1.length < cs.length
            omega
          rw [if_neg h2]
          rfl
    · intro cs acc hf
      rw [parseMembers]
      cases hs : skipSpace cs with
      | nil => rfl
      | cons q rest =>
        have hl0 := skipSpace_length_le cs
        rw [hs] at hl0
        simp only [List.length_cons] at hl0
        dsimp only
        by_cases h1 : q = dquote
        · rw [if_pos h1]
          have hsb := stringBody_good rest.length rest [] (le_refl _)
          cases hb : stringBody rest [] with
          | error e => rw [hb] at hsb; exact hsb
          | ok p =>
            obtain ⟨key, rest1⟩ := p
            rw [hb] at hsb
            have hsb1 : rest1.length < rest.length := hsb
            dsimp only
            cases hs2 : skipSpace rest1 with
            | nil => rfl
            | cons colon rest2 =>
              have hl2 := skipSpace_length_le rest1
              rw [hs2] at hl2
              simp only [List.length_cons] at hl2
              dsimp only
              by_cases h2 : colon = ':'
              · rw [if_pos h2]
                have hv := ihV rest2 (by omega)
                cases hp : parseValue f rest2 with
                | error e => rw [hp] at hv; exact hv
                | ok p =>
                  obtain ⟨v, rest3⟩ := p
                  rw [hp] at hv
                  have hv1 : rest3.length < rest2.length := hv
                  dsimp only
                  cases hs4 : skipSpace rest3 with
                  | nil => rfl
                  | cons c rest4 =>
                    have hl4 := skipSpace_length_le rest3
                    rw [hs4] at hl4
                    simp only [List.length_cons] at hl4
                    dsimp only
                    by_cases h3 : c = ','
                    · rw [if_pos h3]
                      exact Good.mono (ihM rest4 _ (by omega)) (by omega)
                    rw [if_neg h3]
                    by_cases h4 : c = Char.ofNat 125
                    · rw [if_pos h4]
                      show rest4.length < cs.length
                      omega
                    rw [if_neg h4]
                    rfl
              · rw [if_neg h2]
                rfl
        · rw [if_neg h1]
          rfl

theorem JSON.parse_ne_rangeError (text : String) : JSON.parse text ≠ .error .rangeError := by
  unfold JSON.parse
  have h := (parse_good (2 * text.length + 2)).1 text.toList (by
    have hlen : text.toList.length = text.length := rfl
    omega)
  cases hp : parseValue (2 * text.length + 2) text.toList with
  | error e =>
    rw [hp] at h
    have he : e = .syntaxError := h
    subst he
    simp
  | ok p =>
    obtain ⟨v, rest⟩ := p
    dsimp only
    split_ifs <;> simp

/-! ## The buy branch and the portfolio loop over exact rationals -/

/-- The holding that the buy branch works on: the stored one, or the fresh
`{symbol, name, qty: 0, avgPrice: 0}`. -/
theorem confirmTrade_buy_eq (state : State) (t : Trade) (qty : ℚ) (now : Nat)
    (hq : 0 < qty) (hc : qty * t.price ≤ state.cash) :
    confirmTrade state (some t) "buy" qty now =
      { state :=
          { state with
            cash := state.cash - qty * t.price
            holdings :=
              assign t.id
                { symbol := (match lookup t.id state.holdings with
                    | some h => h
                    | none => { symbol := t.symbol, name := t.name, qty := 0, avgPrice := 0 }).symbol
                  name := (match lookup t.id state.holdings with
                    | some h => h
                    | none => { symbol := t.symbol, name := t.name, qty := 0, avgPrice := 0 }).name
                  qty := heldQty t.id state + qty
                  avgPrice := (heldQty t.id state * heldAvgPrice t.id state + qty * t.price) /
                    (heldQty t.id state + qty) }
                state.holdings
            history :=
              { ts := now, type := "BUY", id := t.id, symbol := t.symbol, qty := qty,
                price := t.price, cost := qty * t.price } :: state.history }
        alert := none } := by
  unfold confirmTrade heldQty heldAvgPrice
  simp only [not_le.mpr hq, not_lt.mpr hc, gt_iff_lt, if_true, if_false]
  cases lookup t.id state.holdings <;> rfl

theorem portfolioLoop_fst (lastPrices : List (String × ℚ)) (holdings : List (String × Holding)) :
    ∀ acc : ℚ × List ℚ,
      (portfolioLoop lastPrices holdings acc).1 = acc.1 + holdingsValue holdings lastPrices := by
  induction holdings with
  | nil =>
    intro acc
    simp [portfolioLoop, holdingsValue]
  | cons e rest ih =>
    intro acc
    obtain ⟨id, h⟩ := e
    obtain ⟨pv, rows⟩ := acc
    have hprice : (match lookup id lastPrices with
        | some p => if p = 0 then 0 else p
        | none => 0) = priceOrZero lastPrices id := by
      unfold priceOrZero
      cases lookup id lastPrices with
      | none => rfl
      | some p =>
        by_cases hp : p = 0
        · simp [hp]
        · simp [hp]
    simp only [portfolioLoop, hprice, ih]
    simp only [holdingsValue, List.map_cons, List.sum_cons]
    ring

/-! ## The worked example, step by step -/

theorem example_step1 :
    confirmTrade defaultState (some (btcAt 100)) "buy" 2 1 =
      { state := exampleState1, alert := none } := by
  simp [confirmTrade, defaultState, exampleState1, btcAt, STARTING_USD, lookup, assign]
  norm_num

theorem example_step2 :
    confirmTrade exampleState1 (some (btcAt 200)) "buy" 2 2 =
      { state := exampleState2, alert := none } := by
  simp [confirmTrade, exampleState1, exampleState2, btcAt, lookup, assign]
  norm_num

theorem example_step3 :
    confirmTrade exampleState2 (some (btcAt 300)) "sell" 4 3 =
      { state := exampleState3, alert := none } := by
  simp [confirmTrade, exampleState2, exampleState3, btcAt, lookup, remove]
  norm_num

/-! ## Rounding keeps the sign -/

theorem F64.twoPow_pos (e : Int) : 0 < F64.twoPow e := by
  unfold F64.twoPow
  split_ifs
  · exact_mod_cast Nat.pos_pow_of_pos _ (by norm_num)
  · apply div_pos one_pos
    exact_mod_cast Nat.pos_pow_of_pos _ (by norm_num)

theorem F64.le_zero_iff (y : F64) :
    F64.le (.fin 0) y = true ↔ y = .inf false ∨ ∃ r, y = .fin r ∧ 0 ≤ r := by
  cases y with
  | nan => simp [F64.le]
  | inf s => cases s <;> simp [F64.le]
  | fin q => simp [F64.le]

theorem F64.roundPos_nonneg (x : ℚ) (hx : 0 ≤ x) : F64.le (.fin 0) (F64.roundPos x) = true := by
  rw [F64.le_zero_iff]
  unfold F64.roundPos
  simp only
  have hulp := F64.twoPow_pos (max (F64.exponent x) (-1022) - 52)
  generalize F64.twoPow (max (F64.exponent x) (-1022) - 52) = ulp at hulp
  have hn : (0 : Int) ≤ ⌊x / ulp⌋ := Int.floor_nonneg.mpr (div_nonneg hx (le_of_lt hulp))
  generalize ⌊x / ulp⌋ = n at hn
  have hm : (0 : Int) ≤
      (if x / ulp - (n : ℚ) < 1 / 2 then n
        else if 1 / 2 < x / ulp - (n : ℚ) then n + 1
        else if n % 2 = 0 then n else n + 1) := by
    split_ifs <;> omega
  generalize (if x / ulp - (n : ℚ) < 1 / 2 then n
        else if 1 / 2 < x / ulp - (n : ℚ) then n + 1
        else if n % 2 = 0 then n else n + 1) = m at hm
  by_cases hov : F64.twoPow 1024 ≤ (m : ℚ) * ulp
  · left
    rw [if_pos hov]
  · right
    rw [if_neg hov]
    exact ⟨_, rfl, mul_nonneg (by exact_mod_cast hm) (le_of_lt hulp)⟩

theorem F64.round_nonneg (x : ℚ) (hx : 0 ≤ x) : F64.le (.fin 0) (F64.round x) = true := by
  unfold F64.round
  by_cases h0 : x = 0
  · rw [if_pos h0]
    simp [F64.le]
  · rw [if_neg h0, if_pos (lt_of_le_of_ne hx (Ne.symm h0))]
    exact F64.roundPos_nonneg x hx

/-! ## The cash in double arithmetic -/

theorem IEEE.cost_nonneg (q : ℚ) (price : F64) (hq : 0 < q)
    (hp : F64.le (.fin 0) price = true) : F64.le (.fin 0) (F64.mul (.fin q) price) = true := by
  cases price with
  | nan => simp [F64.le] at hp
  | inf s =>
    cases s
    · simp [F64.mul, F64.le, ne_of_gt hq, not_lt.mpr (le_of_lt hq)]
    · simp [F64.le] at hp
  | fin p =>
    have hp0 : 0 ≤ p := by simpa [F64.le] using hp
    exact F64.round_nonneg _ (mul_nonneg (le_of_lt hq) hp0)

theorem IEEE.confirmTrade_cash_nonneg (state : IEEE.State) (currentTrade : Option IEEE.Trade)
    (type : String) (q : ℚ) (now : Nat) (c : ℚ) (hc : state.cash = .fin c) (h0 : 0 ≤ c)
    (hp : ∀ t, currentTrade = some t → F64.le (.fin 0) t.price = true) :
    F64.le (.fin 0) (IEEE.confirmTrade state currentTrade type (.fin q) now).state.cash = true := by
  have hkeep : F64.le (.fin 0) state.cash = true := by
    rw [hc]
    simpa [F64.le] using h0
  cases currentTrade with
  | none => simpa [IEEE.confirmTrade] using hkeep
  | some t =>
    have hprice := hp t rfl
    unfold IEEE.confirmTrade
    simp only
    by_cases hq : F64.le (.fin q) (.fin 0) = true
    · rw [if_pos hq]
      exact hkeep
    rw [if_neg hq]
    have hq0 : 0 < q := by
      simp only [F64.le, decide_eq_true_eq, not_le] at hq
      exact hq
    have hcost := IEEE.cost_nonneg q t.price hq0 hprice
    generalize F64.mul (.fin q) t.price = cost at hcost
    rw [F64.le_zero_iff] at hcost
    by_cases hb : type = "buy"
    · rw [if_pos hb]
      by_cases hlt : F64.lt state.cash cost = true
      · rw [if_pos hlt]
        exact hkeep
      rw [if_neg hlt]
      simp only
      rcases hcost with hinf | ⟨k, hk, hk0⟩
      · rw [hinf, hc] at hlt
        simp [F64.lt] at hlt
      · rw [hk, hc] at hlt ⊢
        have hck : k ≤ c := by
          simp only [F64.lt, decide_eq_true_eq, not_lt] at hlt
          exact hlt
        show F64.le (.fin 0) (F64.round (c + -k)) = true
        exact F64.round_nonneg _ (by linarith)
    · rw [if_neg hb]
      cases hl : lookup t.id state.holdings with
      | none => exact hkeep
      | some h =>
        simp only
        by_cases hlt : F64.lt h.qty (.fin q) = true
        · rw [if_pos hlt]
          exact hkeep
        rw [if_neg hlt]
        simp only
        rcases hcost with hinf | ⟨k, hk, hk0⟩
        · rw [hinf, hc]
          simp [F64.add, F64.le]
        · rw [hk, hc]
          show F64.le (.fin 0) (F64.round (c + k)) = true
          exact F64.round_nonneg _ (by linarith)

theorem IEEE.step_cash_nonneg (state : IEEE.State) (e : IEEE.Event) (c : ℚ)
    (hc : state.cash = .fin c) (h0 : 0 ≤ c) (hprice : e.priceNonneg = true)
    (hqty : e.qtyFinite = true) : F64.le (.fin 0) (IEEE.step state e).cash = true := by
  have hkeep : F64.le (.fin 0) state.cash = true := by
    rw [hc]
    simpa [F64.le] using h0
  cases e with
  | trade currentTrade type qty now =>
    cases qty with
    | nan => simp [IEEE.Event.qtyFinite, F64.isFinite] at hqty
    | inf s => simp [IEEE.Event.qtyFinite, F64.isFinite] at hqty
    | fin q =>
      apply IEEE.confirmTrade_cash_nonneg state currentTrade type q now c hc h0
      intro t ht
      subst ht
      exact hprice
  | reset confirmed =>
    cases confirmed
    · simpa [IEEE.step, IEEE.resetDemo] using hkeep
    · simp [IEEE.step, IEEE.resetDemo, IEEE.STARTING_USD, F64.le]
  | market data => simpa [IEEE.step, IEEE.loadMarket] using hkeep
  | currency value => simpa [IEEE.step] using hkeep

theorem IEEE.run_append_one (state : IEEE.State) (events : List IEEE.Event) (e : IEEE.Event) :
    IEEE.run state (events ++ [e]) = IEEE.step (IEEE.run state events) e := by
  simp [IEEE.run, List.foldl_append]

theorem IEEE.run_cash_nonneg (events : List IEEE.Event) :
    (∀ e ∈ events, e.priceNonneg = true ∧ e.qtyFinite = true) →
    (∀ k, k < events.length →
      (IEEE.run IEEE.defaultState (events.take k)).cash.isFinite = true) →
    F64.le (.fin 0) (IEEE.run IEEE.defaultState events).cash = true := by
  induction events using List.reverseRecOn with
  | nil =>
    intro _ _
    simp [IEEE.run, IEEE.defaultState, IEEE.STARTING_USD, F64.le]
  | append_singleton es e ih =>
    intro hwf hfin
    have hwf1 : ∀ x ∈ es, x.priceNonneg = true ∧ x.qtyFinite = true :=
      fun x hx => hwf x (List.mem_append_left _ hx)
    have hfin1 : ∀ k, k < es.length →
        (IEEE.run IEEE.defaultState (es.take k)).cash.isFinite = true := by
      intro k hk
      have := hfin k (by simp only [List.length_append, List.length_singleton]; omega)
      rwa [List.take_append_of_le_length (le_of_lt hk)] at this
    have hprev := ih hwf1 hfin1
    have hlast := hfin es.length (by simp)
    rw [List.take_left'] at hlast
    · rw [IEEE.run_append_one]
      have he := hwf e (by simp)
      cases hcash : (IEEE.run IEEE.defaultState es).cash with
      | nan => rw [hcash] at hlast; simp [F64.isFinite] at hlast
      | inf s => rw [hcash] at hlast; simp [F64.isFinite] at hlast
      | fin c =>
        rw [hcash] at hprev
        have h0 : 0 ≤ c := by simpa [F64.le] using hprev
        exact IEEE.step_cash_nonneg _ e c hcash h0 he.1 he.2
    · rfl

/-! ## Sequences of buys in double arithmetic -/

theorem IEEE.buy_guards_f64 (state : IEEE.State) (t : IEEE.Trade) (qty : F64) (now : Nat)
    (hacc : (IEEE.confirmTrade state (some t) "buy" qty now).alert = none) :
    F64.le qty (.fin 0) = false ∧ F64.lt state.cash (F64.mul qty t.price) = false := by
  unfold IEEE.confirmTrade at hacc
  simp only at hacc
  by_cases hq : F64.le qty (.fin 0) = true
  · rw [if_pos hq] at hacc
    simp at hacc
  rw [if_neg hq] at hacc
  simp only [if_true] at hacc
  by_cases hlt : F64.lt state.cash (F64.mul qty t.price) = true
  · rw [if_pos hlt] at hacc
    simp at hacc
  exact ⟨by simpa using hq, by simpa using hlt⟩

theorem IEEE.buy_eq_f64 (state : IEEE.State) (t : IEEE.Trade) (qty : F64) (now : Nat)
    (hq : F64.le qty (.fin 0) = false)
    (hlt : F64.lt state.cash (F64.mul qty t.price) = false) :
    IEEE.confirmTrade state (some t) "buy" qty now =
      { state :=
          { state with
            cash := F64.sub state.cash (F64.mul qty t.price)
            holdings :=
              assign t.id
                { (match lookup t.id state.holdings with
                    | some h => h
                    | none =>
                      ({ symbol := t.symbol, name := t.name, qty := .fin 0,
                         avgPrice := .fin 0 } : IEEE.Holding)) with
                  qty := F64.add (match lookup t.id state.holdings with
                    | some h => h
                    | none =>
                      ({ symbol := t.symbol, name := t.name, qty := .fin 0,
                         avgPrice := .fin 0 } : IEEE.Holding)).qty qty
                  avgPrice :=
                    F64.div
                      (F64.add
                        (F64.mul (match lookup t.id state.holdings with
                          | some h => h
                          | none =>
                            ({ symbol := t.symbol, name := t.name, qty := .fin 0,
                               avgPrice := .fin 0 } : IEEE.Holding)).qty
                          (match lookup t.id state.holdings with
                          | some h => h
                          | none =>
                            ({ symbol := t.symbol, name := t.name, qty := .fin 0,
                               avgPrice := .fin 0 } : IEEE.Holding)).avgPrice)
                        (F64.mul qty t.price))
                      (F64.add (match lookup t.id state.holdings with
                        | some h => h
                        | none =>
                          ({ symbol := t.symbol, name := t.name, qty := .fin 0,
                             avgPrice := .fin 0 } : IEEE.Holding)).qty qty) }
                state.holdings
            history :=
              { ts := now, type := "BUY", id := t.id, symbol := t.symbol, qty := qty,
                price := t.price, cost := F64.mul qty t.price } :: state.history }
        alert := none } := by
  unfold IEEE.confirmTrade
  simp only [hq, hlt, if_true, Bool.false_eq_true, if_false]

theorem F64.exact_zero : F64.Exact 0 := by
  simp [F64.Exact, F64.round]

theorem IEEE.buy_exact_f64 (state : IEEE.State) (id symbol name : String) (q p : ℚ)
    (now : Nat) (Q A T : ℚ)
    (hacc : (IEEE.confirmTrade state
      (some { id := id, symbol := symbol, name := name, price := .fin p })
      "buy" (.fin q) now).alert = none)
    (hold : (lookup id state.holdings = none ∧ Q = 0 ∧ A = 0) ∨
      ∃ h, lookup id state.holdings = some h ∧ h.qty = .fin Q ∧ h.avgPrice = .fin A)
    (hT : Q * A = T) (eT : F64.Exact T) (e1 : F64.Exact (q * p)) (e2 : F64.Exact (Q + q))
    (e3 : F64.Exact (T + q * p)) (e4 : F64.Exact ((T + q * p) / (Q + q)))
    (hne : Q + q ≠ 0) :
    ∃ h1, lookup id (IEEE.confirmTrade state
        (some { id := id, symbol := symbol, name := name, price := .fin p })
        "buy" (.fin q) now).state.holdings = some h1 ∧
      h1.qty = .fin (Q + q) ∧ h1.avgPrice = .fin ((T + q * p) / (Q + q)) := by
  obtain ⟨hq, hlt⟩ := IEEE.buy_guards_f64 _ _ _ _ hacc
  rw [IEEE.buy_eq_f64 _ _ _ _ hq hlt]
  refine ⟨_, lookup_assign_self _ _ _, ?_, ?_⟩
  · rcases hold with ⟨hl, hQ, _⟩ | ⟨h, hl, hhq, _⟩
    · subst hQ
      simp only [hl, F64.add]
      exact e2
    · simp only [hl, hhq, F64.add]
      exact e2
  · unfold F64.Exact at eT e1 e2 e3 e4
    rcases hold with ⟨hl, hQ, hA⟩ | ⟨h, hl, hhq, hha⟩
    · subst hQ hA
      simp only [hl, F64.mul, F64.add, F64.div, hT, eT, e1, e2, e3, if_neg hne, e4]
    · simp only [hl, hhq, hha, F64.mul, F64.add, F64.div, hT, eT, e1, e2, e3, if_neg hne, e4]

theorem IEEE.buyAll_cons_f64 (id symbol name : String) (state final : IEEE.State)
    (r : IEEE.BuyRequest) (rest : List IEEE.BuyRequest)
    (hrun : IEEE.buyAll id symbol name state (r :: rest) = some final) :
    (IEEE.confirmTrade state
        (some { id := id, symbol := symbol, name := name, price := r.price })
        "buy" r.qty r.now).alert = none ∧
      IEEE.buyAll id symbol name
        (IEEE.confirmTrade state
          (some { id := id, symbol := symbol, name := name, price := r.price })
          "buy" r.qty r.now).state rest = some final := by
  unfold IEEE.buyAll at hrun
  simp only at hrun
  split_ifs at hrun with hacc
  exact ⟨hacc, hrun⟩

theorem IEEE.buyAll_held_f64 (id symbol name : String) (reqs : List CryptoDemo.BuyRequest) :
    ∀ (state final : IEEE.State) (h : IEEE.Holding) (Q A T : ℚ),
      lookup id state.holdings = some h → h.qty = .fin Q → h.avgPrice = .fin A →
      Q * A = T → 0 < Q → F64.Exact T → IEEE.NoRounding Q T reqs →
      IEEE.buyAll id symbol name state (reqs.map IEEE.ofExact) = some final →
      ∃ h1, lookup id final.holdings = some h1 ∧
        h1.avgPrice = .fin ((T + totalSpent reqs) / (Q + totalQty reqs)) := by
  induction reqs with
  | nil =>
    intro state final h Q A T hl hq ha hT hQ _ _ hrun
    simp only [List.map_nil, IEEE.buyAll, Option.some.injEq] at hrun
    subst hrun
    refine ⟨h, hl, ?_⟩
    rw [ha]
    simp only [totalSpent, totalQty, List.map_nil, List.sum_nil, add_zero]
    congr 1
    rw [← hT]
    field_simp
  | cons r rest ih =>
    intro state final h Q A T hl hq ha hT hQ eT hex hrun
    simp only [List.map_cons] at hrun
    obtain ⟨hacc, hrest⟩ := IEEE.buyAll_cons_f64 id symbol name state final _ _ hrun
    obtain ⟨e1, e2, e3, e4, hex1⟩ := hex
    have hq0 : 0 < r.qty := by
      have := (IEEE.buy_guards_f64 _ _ _ _ hacc).1
      simpa [IEEE.ofExact, F64.le] using this
    have hne : Q + r.qty ≠ 0 := by linarith
    obtain ⟨h1, hl1, hq1, ha1⟩ := IEEE.buy_exact_f64 state id symbol name r.qty r.price r.now
      Q A T hacc (Or.inr ⟨h, hl, hq, ha⟩) hT eT e1 e2 e3 e4 hne
    obtain ⟨h2, hl2, ha2⟩ := ih _ final h1 (Q + r.qty) ((T + r.qty * r.price) / (Q + r.qty))
      (T + r.qty * r.price) hl1 hq1 ha1 (mul_div_cancel₀ _ hne) (by linarith) e3 hex1 hrest
    refine ⟨h2, hl2, ?_⟩
    rw [ha2]
    simp only [totalSpent, totalQty, List.map_cons, List.sum_cons]
    congr 2 <;> ring

theorem IEEE.buyAll_fresh_f64 (id symbol name : String) (state final : IEEE.State)
    (reqs : List CryptoDemo.BuyRequest) (hnew : lookup id state.holdings = none) (hne : reqs ≠ [])
    (hex : IEEE.NoRounding 0 0 reqs)
    (hrun : IEEE.buyAll id symbol name state (reqs.map IEEE.ofExact) = some final) :
    ∃ h, lookup id final.holdings = some h ∧
      h.avgPrice = .fin (totalSpent reqs / totalQty reqs) := by
  cases reqs with
  | nil => exact absurd rfl hne
  | cons r rest =>
    simp only [List.map_cons] at hrun
    obtain ⟨hacc, hrest⟩ := IEEE.buyAll_cons_f64 id symbol name state final _ _ hrun
    obtain ⟨e1, e2, e3, e4, hex1⟩ := hex
    have hq0 : 0 < r.qty := by
      have := (IEEE.buy_guards_f64 _ _ _ _ hacc).1
      simpa [IEEE.ofExact, F64.le] using this
    have hne0 : (0 : ℚ) + r.qty ≠ 0 := by linarith
    obtain ⟨h1, hl1, hq1, ha1⟩ := IEEE.buy_exact_f64 state id symbol name r.qty r.price r.now
      0 0 0 hacc (Or.inl ⟨hnew, rfl, rfl⟩) (by ring) F64.exact_zero e1 e2 e3 e4 hne0
    obtain ⟨h2, hl2, ha2⟩ := IEEE.buyAll_held_f64 id symbol name rest _ final h1 (0 + r.qty)
      ((0 + r.qty * r.price) / (0 + r.qty)) (0 + r.qty * r.price) hl1 hq1 ha1
      (mul_div_cancel₀ _ hne0) (by linarith) e3 hex1 hrest
    refine ⟨h2, hl2, ?_⟩
    rw [ha2]
    simp only [totalSpent, totalQty, List.map_cons, List.sum_cons]
    congr 2 <;> ring

/-! ## The claims -/

/-- C1: a trade attempt with `qty ≤ 0`, or a buy whose cost `qty * price` exceeds
the cash, or a sell (any type other than `buy`) of an asset that is not held or
of which less than `qty` is held, is rejected with an alert and leaves the whole
state (cash, holdings, history, and the rest) exactly as it was. -/
theorem confirmTrade_rejected_unchanged (state : State) (t : Trade) (type : String) (qty : ℚ)
    (now : Nat)
    (h : qty ≤ 0 ∨ (type = "buy" ∧ qty * t.price > state.cash) ∨
      (type ≠ "buy" ∧ (lookup t.id state.holdings = none ∨
        ∃ hd, lookup t.id state.holdings = some hd ∧ hd.qty < qty))) :
    (confirmTrade state (some t) type qty now).alert ≠ none ∧
      (confirmTrade state (some t) type qty now).state = state := by
  unfold confirmTrade
  simp only
  by_cases h1 : qty ≤ 0
  · simp [h1]
  · rcases h with h | ⟨hb, hc⟩ | ⟨hs, hn | ⟨hd, hl, hlt⟩⟩
    · exact absurd h h1
    · simp [h1, hb, hc]
    · simp [h1, hs, hn]
    · simp [h1, hs, hl, hlt]

/-- C1, at the example of the specification: with cash 10000, BUY 1000 @ 100 is
rejected and the state, cash included, is what it was. -/
theorem confirmTrade_rejected_unchanged_witness :
    ((1000 : ℚ) ≤ 0 ∨ ("buy" = "buy" ∧ (1000 : ℚ) * (100 : ℚ) > defaultState.cash) ∨
      ("buy" ≠ "buy" ∧ (lookup "bitcoin" defaultState.holdings = none ∨
        ∃ hd, lookup "bitcoin" defaultState.holdings = some hd ∧ hd.qty < 1000))) ∧
    (confirmTrade defaultState
        (some { id := "bitcoin", symbol := "btc", name := "Bitcoin", price := 100 })
        "buy" 1000 0).alert ≠ none ∧
    (confirmTrade defaultState
        (some { id := "bitcoin", symbol := "btc", name := "Bitcoin", price := 100 })
        "buy" 1000 0).state = defaultState ∧
    defaultState.cash = 10000 :=
  have hyp : (1000 : ℚ) ≤ 0 ∨ ("buy" = "buy" ∧ (1000 : ℚ) * (100 : ℚ) > defaultState.cash) ∨
      ("buy" ≠ "buy" ∧ (lookup "bitcoin" defaultState.holdings = none ∨
        ∃ hd, lookup "bitcoin" defaultState.holdings = some hd ∧ hd.qty < 1000)) :=
    Or.inr (Or.inl ⟨rfl, by norm_num [defaultState, STARTING_USD]⟩)
  have res := confirmTrade_rejected_unchanged defaultState
    { id := "bitcoin", symbol := "btc", name := "Bitcoin", price := 100 } "buy" 1000 0 hyp
  ⟨hyp, res.1, res.2, by simp [defaultState, STARTING_USD]⟩

/-- C2, refuted as stated: BUY 1e200 @ 1e-200, SELL 1e200 @ 1e200, BUY 1e200 @
1e200 from the initial state are three attempts with finite quantities and
positive prices; the cash is 9999 after the first, `Infinity` after the second
(the credit overflows) and `NaN` after the third (the cost `Infinity` is not
greater than the cash `Infinity`, and `Infinity - Infinity` is `NaN`), and
`0 <= NaN` is false. -/
theorem cash_overflow_counterexample :
    (∀ e ∈ IEEE.overflowEvents, e.priceNonneg = true ∧ e.qtyFinite = true) ∧
      (IEEE.run IEEE.defaultState (IEEE.overflowEvents.take 1)).cash = .fin 9999 ∧
      (IEEE.run IEEE.defaultState (IEEE.overflowEvents.take 2)).cash = .inf false ∧
      (IEEE.run IEEE.defaultState IEEE.overflowEvents).cash = .nan ∧
      F64.le (.fin 0) (IEEE.run IEEE.defaultState IEEE.overflowEvents).cash = false := by
  decide!

/-- C2, amended: in every state reached from the initial state by a finite
sequence of events (trade attempts, accepted or rejected, whose quantity is a
finite number and whose unit price satisfies `0 <= price`, resets, price
refreshes and currency changes), `0 <= cash` holds, provided the cash was a
finite number in every earlier state of the sequence. -/
theorem cash_nonneg_while_finite (events : List IEEE.Event)
    (hprice : ∀ e ∈ events, e.priceNonneg = true)
    (hqty : ∀ e ∈ events, e.qtyFinite = true)
    (hfin : ∀ k, k < events.length →
      (IEEE.run IEEE.defaultState (events.take k)).cash.isFinite = true) :
    F64.le (.fin 0) (IEEE.run IEEE.defaultState events).cash = true :=
  IEEE.run_cash_nonneg events (fun e he => ⟨hprice e he, hqty e he⟩) hfin

/-- C2, amended, on the worked example: BUY 2 @ 100, BUY 2 @ 200, SELL 4 @ 300
have finite quantities and positive prices, the cash before each of them is
finite, and the cash after them is 10600. -/
theorem cash_nonneg_while_finite_witness :
    (∀ e ∈ IEEE.exampleEvents, e.priceNonneg = true) ∧
      (∀ e ∈ IEEE.exampleEvents, e.qtyFinite = true) ∧
      (∀ k, k < IEEE.exampleEvents.length →
        (IEEE.run IEEE.defaultState (IEEE.exampleEvents.take k)).cash.isFinite = true) ∧
      (IEEE.run IEEE.defaultState IEEE.exampleEvents).cash = .fin 10600 ∧
      F64.le (.fin 0) (IEEE.run IEEE.defaultState IEEE.exampleEvents).cash = true :=
  have hprice : ∀ e ∈ IEEE.exampleEvents, e.priceNonneg = true := by decide!
  have hqty : ∀ e ∈ IEEE.exampleEvents, e.qtyFinite = true := by decide!
  have hfin : ∀ k, k < IEEE.exampleEvents.length →
      (IEEE.run IEEE.defaultState (IEEE.exampleEvents.take k)).cash.isFinite = true := by
    decide!
  ⟨hprice, hqty, hfin, by decide!, cash_nonneg_while_finite IEEE.exampleEvents hprice hqty hfin⟩

/-- C3, refuted as stated: the buys 1 @ 1, 6 @ 10, 1 @ 3 on an asset not held
before are all accepted and spend 64 on 8 units, yet the average price of the
holding is 7.999999999999999 (`8 - 2 ^ (-50)`), not `64 / 8 = 8`; in the order
1 @ 1, 1 @ 3, 6 @ 10 the same buys leave the average price 8. -/
theorem avgPrice_rounding_counterexample :
    IEEE.avgPriceAfter "bitcoin" "btc" "Bitcoin" IEEE.defaultState
        (IEEE.roundingBuys.map IEEE.ofExact) =
        some (.fin (9007199254740991 / 1125899906842624)) ∧
      totalSpent IEEE.roundingBuys / totalQty IEEE.roundingBuys = 8 ∧
      (9007199254740991 / 1125899906842624 : ℚ) ≠ 8 ∧
      IEEE.roundingBuysPermuted.Perm IEEE.roundingBuys ∧
      IEEE.avgPriceAfter "bitcoin" "btc" "Bitcoin" IEEE.defaultState
        (IEEE.roundingBuysPermuted.map IEEE.ofExact) = some (.fin 8) := by
  refine ⟨by decide!, by decide!, by decide!, ?_, by decide!⟩
  exact List.Perm.cons _ (List.Perm.swap _ _ _)

/-- C3, amended: when a non-empty sequence of buys with finite quantities and
prices on one asset that was not held is accepted in full and no operation of
the average-price updates rounds (every product `qᵢ·pᵢ`, running quantity,
running total and running average is a double), the average price of the
resulting holding is the total spent `Σ qᵢ·pᵢ` divided by the total quantity
`Σ qᵢ`; every permutation of the sequence that is also accepted in full without
rounding ends with the same average price. -/
theorem avgPrice_when_exact (id symbol name : String) (state final : IEEE.State)
    (reqs : List BuyRequest) (hnew : lookup id state.holdings = none) (hne : reqs ≠ [])
    (hexact : IEEE.NoRounding 0 0 reqs)
    (hrun : IEEE.buyAll id symbol name state (reqs.map IEEE.ofExact) = some final) :
    ∃ h, lookup id final.holdings = some h ∧
      h.avgPrice = .fin (totalSpent reqs / totalQty reqs) ∧
      ∀ (reqs1 : List BuyRequest) (final1 : IEEE.State), reqs1.Perm reqs →
        IEEE.NoRounding 0 0 reqs1 →
        IEEE.buyAll id symbol name state (reqs1.map IEEE.ofExact) = some final1 →
        ∃ h1, lookup id final1.holdings = some h1 ∧ h1.avgPrice = h.avgPrice := by
  obtain ⟨h, hl, havg⟩ := IEEE.buyAll_fresh_f64 id symbol name state final reqs hnew hne
    hexact hrun
  refine ⟨h, hl, havg, ?_⟩
  intro reqs1 final1 hperm hexact1 hrun1
  have hne1 : reqs1 ≠ [] := by
    intro hnil
    subst hnil
    exact hne (List.Perm.eq_nil (List.Perm.symm hperm))
  obtain ⟨h1, hl1, havg1⟩ := IEEE.buyAll_fresh_f64 id symbol name state final1 reqs1 hnew hne1
    hexact1 hrun1
  refine ⟨h1, hl1, ?_⟩
  rw [havg1, havg]
  unfold totalSpent totalQty
  rw [List.Perm.sum_eq (List.Perm.map _ hperm), List.Perm.sum_eq (List.Perm.map _ hperm)]

/-- C3, amended, on the worked example: BUY 2 @ 100 then BUY 2 @ 200 on an asset
not held before is accepted, none of its operations rounds, and the average
price is 600 / 4 = 150. -/
theorem avgPrice_when_exact_witness :
    lookup "bitcoin" IEEE.defaultState.holdings = none ∧ exampleBuys ≠ [] ∧
      IEEE.NoRounding 0 0 exampleBuys ∧
      IEEE.buyAll "bitcoin" "btc" "Bitcoin" IEEE.defaultState
        (exampleBuys.map IEEE.ofExact) = some IEEE.exampleState2 ∧
      ∃ h, lookup "bitcoin" IEEE.exampleState2.holdings = some h ∧ h.avgPrice = .fin 150 :=
  have hnew : lookup "bitcoin" IEEE.defaultState.holdings = none := by decide!
  have hne : exampleBuys ≠ [] := by simp [exampleBuys]
  have hexact : IEEE.NoRounding 0 0 exampleBuys :=
    ⟨by decide!, by decide!, by decide!, by decide!, by decide!, by decide!, by decide!,
      by decide!, trivial⟩
  have hrun : IEEE.buyAll "bitcoin" "btc" "Bitcoin" IEEE.defaultState
      (exampleBuys.map IEEE.ofExact) = some IEEE.exampleState2 := by decide!
  have hmain := avgPrice_when_exact "bitcoin" "btc" "Bitcoin" IEEE.defaultState
    IEEE.exampleState2 exampleBuys hnew hne hexact hrun
  ⟨hnew, hne, hexact, hrun, by
    obtain ⟨h, hl, havg, _⟩ := hmain
    refine ⟨h, hl, ?_⟩
    rw [havg]
    congr 1
    norm_num [totalSpent, totalQty, exampleBuys]⟩

/-- C4: an accepted buy of `qty > 0` at unit price `p` with `qty * p ≤ cash`
raises no alert, debits the cash by `qty * p`, and leaves a holding of the asset
with quantity `oldQty + qty` and average price
`(oldQty * oldAvgPrice + qty * p) / (oldQty + qty)`, where `oldQty` and
`oldAvgPrice` are those of the holding before, `0` when the asset was not held. -/
theorem confirmTrade_buy_accepted (state : State) (t : Trade) (qty : ℚ) (now : Nat)
    (hq : 0 < qty) (hc : qty * t.price ≤ state.cash) :
    (confirmTrade state (some t) "buy" qty now).alert = none ∧
      (confirmTrade state (some t) "buy" qty now).state.cash = state.cash - qty * t.price ∧
      ∃ h, lookup t.id (confirmTrade state (some t) "buy" qty now).state.holdings = some h ∧
        h.qty = heldQty t.id state + qty ∧
        h.avgPrice = (heldQty t.id state * heldAvgPrice t.id state + qty * t.price) /
          (heldQty t.id state + qty) := by
  rw [confirmTrade_buy_eq state t qty now hq hc]
  exact ⟨rfl, rfl, _, lookup_assign_self _ _ _, rfl, rfl⟩

/-- C4, on the worked example: from cash 10000, BUY 2 @ 100 gives cash 9800 and
a holding of quantity 2 at average price 100; then BUY 2 @ 200 gives cash 9400
and a holding of quantity 4 at average price 150. -/
theorem confirmTrade_buy_accepted_witness :
    ((0 : ℚ) < 2 ∧ 2 * (btcAt 100).price ≤ defaultState.cash ∧
      (confirmTrade defaultState (some (btcAt 100)) "buy" 2 1).alert = none ∧
      (confirmTrade defaultState (some (btcAt 100)) "buy" 2 1).state.cash = 9800 ∧
      ∃ h, lookup "bitcoin"
          (confirmTrade defaultState (some (btcAt 100)) "buy" 2 1).state.holdings = some h ∧
        h.qty = 2 ∧ h.avgPrice = 100) ∧
    (2 * (btcAt 200).price ≤ exampleState1.cash ∧
      (confirmTrade exampleState1 (some (btcAt 200)) "buy" 2 2).alert = none ∧
      (confirmTrade exampleState1 (some (btcAt 200)) "buy" 2 2).state.cash = 9400 ∧
      ∃ h, lookup "bitcoin"
          (confirmTrade exampleState1 (some (btcAt 200)) "buy" 2 2).state.holdings = some h ∧
        h.qty = 4 ∧ h.avgPrice = 150) :=
  have hq : (0 : ℚ) < 2 := by norm_num
  have hc : 2 * (btcAt 100).price ≤ defaultState.cash := by
    norm_num [btcAt, defaultState, STARTING_USD]
  have hc2 : 2 * (btcAt 200).price ≤ exampleState1.cash := by
    norm_num [btcAt, exampleState1]
  have hmain := confirmTrade_buy_accepted defaultState (btcAt 100) 2 1 hq hc
  have hmain2 := confirmTrade_buy_accepted exampleState1 (btcAt 200) 2 2 hq hc2
  ⟨⟨hq, hc, hmain.1, by
      rw [hmain.2.1]
      norm_num [btcAt, defaultState, STARTING_USD], by
      obtain ⟨h, hl, hqty, havg⟩ := hmain.2.2
      refine ⟨h, hl, ?_, ?_⟩
      · rw [hqty]
        norm_num [heldQty, defaultState, lookup]
      · rw [havg]
        norm_num [heldQty, heldAvgPrice, defaultState, lookup, btcAt]⟩,
    ⟨hc2, hmain2.1, by
      rw [hmain2.2.1]
      norm_num [btcAt, exampleState1], by
      obtain ⟨h, hl, hqty, havg⟩ := hmain2.2.2
      refine ⟨h, hl, ?_, ?_⟩
      · rw [hqty]
        norm_num [heldQty, exampleState1, lookup, btcAt]
      · rw [havg]
        norm_num [heldQty, heldAvgPrice, exampleState1, lookup, btcAt]⟩⟩

/-- C5: an accepted sell (any type other than `buy`) of `qty` with
`0 < qty ≤ held qty` at unit price `p` ends without an alert and credits the
cash with `qty * p`; when `qty` is the whole held quantity the entry of the asset
is deleted from `holdings`, otherwise the entry stays with its quantity reduced
by `qty` and its average price (and symbol and name) unchanged. -/
theorem confirmTrade_sell_accepted (state : State) (t : Trade) (type : String) (qty : ℚ)
    (now : Nat) (h : Holding) (htype : type ≠ "buy")
    (hheld : lookup t.id state.holdings = some h) (hq : 0 < qty) (hle : qty ≤ h.qty) :
    (confirmTrade state (some t) type qty now).alert = none ∧
      (confirmTrade state (some t) type qty now).state.cash = state.cash + qty * t.price ∧
      (qty = h.qty →
        (confirmTrade state (some t) type qty now).state.holdings = remove t.id state.holdings ∧
        lookup t.id (confirmTrade state (some t) type qty now).state.holdings = none) ∧
      (qty ≠ h.qty →
        lookup t.id (confirmTrade state (some t) type qty now).state.holdings =
          some { h with qty := h.qty - qty }) := by
  have hstate : confirmTrade state (some t) type qty now =
      { state :=
          { state with
            cash := state.cash + qty * t.price
            holdings :=
              if h.qty - qty = 0 then remove t.id state.holdings
              else assign t.id { h with qty := h.qty - qty } state.holdings
            history :=
              { ts := now, type := "SELL", id := t.id, symbol := t.symbol, qty := qty,
                price := t.price, cost := qty * t.price } :: state.history }
        alert := none } := by
    unfold confirmTrade
    simp only [not_le.mpr hq, htype, hheld, not_lt.mpr hle, if_false]
  rw [hstate]
  refine ⟨rfl, rfl, ?_, ?_⟩
  · intro heq
    have h0 : h.qty - qty = 0 := by rw [heq]; ring
    simp only [h0, if_true]
    exact ⟨trivial, lookup_remove_self _ _⟩
  · intro hne
    have h0 : ¬ (h.qty - qty = 0) := fun h0 => hne (by linarith)
    simp only [h0, if_false]
    exact lookup_assign_self _ _ _

/-- C5, on the worked example: with the holding of quantity 4 at average price
150 and cash 9400, SELL 4 @ 300 gives cash 10600 and no holding, while SELL 1 @
300 gives cash 9700 and leaves the holding with quantity 3 at average price 150. -/
theorem confirmTrade_sell_accepted_witness :
    "sell" ≠ "buy" ∧
      lookup (btcAt 300).id exampleState2.holdings =
        some { symbol := "btc", name := "Bitcoin", qty := 4, avgPrice := 150 } ∧
      (0 : ℚ) < 4 ∧
      (confirmTrade exampleState2 (some (btcAt 300)) "sell" 4 3).alert = none ∧
      (confirmTrade exampleState2 (some (btcAt 300)) "sell" 4 3).state.cash = 10600 ∧
      lookup "bitcoin"
        (confirmTrade exampleState2 (some (btcAt 300)) "sell" 4 3).state.holdings = none ∧
      (confirmTrade exampleState2 (some (btcAt 300)) "sell" 1 3).alert = none ∧
      (confirmTrade exampleState2 (some (btcAt 300)) "sell" 1 3).state.cash = 9700 ∧
      lookup "bitcoin"
        (confirmTrade exampleState2 (some (btcAt 300)) "sell" 1 3).state.holdings =
          some { symbol := "btc", name := "Bitcoin", qty := 3, avgPrice := 150 } :=
  have htype : "sell" ≠ "buy" := by decide
  have hheld : lookup (btcAt 300).id exampleState2.holdings =
      some { symbol := "btc", name := "Bitcoin", qty := 4, avgPrice := 150 } := by
    simp [btcAt, exampleState2, lookup]
  have hq : (0 : ℚ) < 4 := by norm_num
  have hmain := confirmTrade_sell_accepted exampleState2 (btcAt 300) "sell" 4 3
    { symbol := "btc", name := "Bitcoin", qty := 4, avgPrice := 150 } htype hheld hq (le_refl _)
  have hpart := confirmTrade_sell_accepted exampleState2 (btcAt 300) "sell" 1 3
    { symbol := "btc", name := "Bitcoin", qty := 4, avgPrice := 150 } htype hheld
    (by norm_num) (by norm_num)
  ⟨htype, hheld, hq, hmain.1, by
    rw [hmain.2.1]
    norm_num [btcAt, exampleState2], (hmain.2.2.1 rfl).2, hpart.1, by
    rw [hpart.2.1]
    norm_num [btcAt, exampleState2], by
    refine (hpart.2.2.2 (by norm_num)).trans ?_
    norm_num⟩

/-- C6, the code at the failing input: from the initial state, a buy of Bitcoin
at price 100 whose amount text is no number (`qty` is `NaN`) passes both guards
(`NaN <= 0` and `NaN > cash` are false) and is accepted; it leaves cash `NaN` and
a Bitcoin holding with quantity `NaN`, and `0 < NaN` is false. -/
theorem nan_amount_accepted :
    IEEE.confirmTrade IEEE.defaultState (some (IEEE.btcAt (.fin 100))) "buy" .nan 1 =
        { state :=
            { cash := .nan
              holdings :=
                [("bitcoin",
                  { symbol := "btc", name := "Bitcoin", qty := .nan, avgPrice := .nan })]
              history :=
                [{ ts := 1, type := "BUY", id := "bitcoin", symbol := "btc", qty := .nan,
                   price := .fin 100, cost := .nan }]
              lastPrices := []
              currency := "usd" }
          alert := none } ∧
      F64.lt (.fin 0) .nan = false ∧ F64.le (.fin 0) .nan = false := by
  decide!

/-- C7: an accepted trade (one that ends without an alert) puts one new order in
front of the old history, which is kept as it was; the order records the side,
the asset id, the symbol, the quantity, the unit price and the cost
`qty * price` of the trade, and the time of the click. -/
theorem confirmTrade_history (state : State) (currentTrade : Option Trade) (type : String)
    (qty : ℚ) (now : Nat) (hacc : (confirmTrade state currentTrade type qty now).alert = none) :
    ∃ t, currentTrade = some t ∧
      (confirmTrade state currentTrade type qty now).state.history =
        { ts := now, type := if type = "buy" then "BUY" else "SELL", id := t.id,
          symbol := t.symbol, qty := qty, price := t.price, cost := qty * t.price }
          :: state.history ∧
      (confirmTrade state currentTrade type qty now).state.history.length =
        state.history.length + 1 := by
  cases currentTrade with
  | none => simp [confirmTrade] at hacc
  | some t =>
    refine ⟨t, rfl, ?_⟩
    unfold confirmTrade at hacc ⊢
    simp only at hacc ⊢
    split_ifs at hacc ⊢ with h1 h2 h3
    · simp
    · cases hl : lookup t.id state.holdings with
      | none => rw [hl] at hacc; simp at hacc
      | some h =>
        rw [hl] at hacc
        simp only at hacc ⊢
        split_ifs at hacc ⊢ with h4 h5
        · simp
        · simp

/-- C7, on the worked example: the accepted BUY 2 @ 100 puts its order in front
of the empty history. -/
theorem confirmTrade_history_witness :
    (confirmTrade defaultState (some (btcAt 100)) "buy" 2 1).alert = none ∧
      ∃ t, some (btcAt 100) = some t ∧
        (confirmTrade defaultState (some (btcAt 100)) "buy" 2 1).state.history =
          { ts := 1, type := if "buy" = "buy" then "BUY" else "SELL", id := t.id,
            symbol := t.symbol, qty := 2, price := t.price, cost := 2 * t.price }
            :: defaultState.history ∧
        (confirmTrade defaultState (some (btcAt 100)) "buy" 2 1).state.history.length =
          defaultState.history.length + 1 :=
  have hacc : (confirmTrade defaultState (some (btcAt 100)) "buy" 2 1).alert = none := by
    rw [example_step1]
  ⟨hacc, confirmTrade_history defaultState (some (btcAt 100)) "buy" 2 1 hacc⟩

/-- C8, refuted as stated: with the malformed text `{` stored under the key,
`loadState` throws the `SyntaxError` of `JSON.parse` at its caller; with the
well-formed JSON text `null`, which is no snapshot, it returns and the state is
`null`, not the default initial state. -/
theorem loadState_malformed_counterexample :
    loadState [(LOCAL_KEY, "\x7b")] defaultState.toValue = .error .syntaxError ∧
      loadState [(LOCAL_KEY, "null")] defaultState.toValue = .ok .null ∧
      JSValue.null ≠ defaultState.toValue := by
  refine ⟨by rfl, by rfl, ?_⟩
  intro h
  simp [State.toValue] at h

/-- C8, amended: when nothing or the empty string is stored under the key,
`loadState` returns normally and leaves the state as it was (the default initial
state at start-up); when a non-empty text is stored, the outcome of `loadState`
is the outcome of `JSON.parse` on that text: the parsed value becomes the state
unchecked, and an exception of `JSON.parse`, which is always a `SyntaxError`,
leaves `loadState`. -/
theorem loadState_outcome (localStorage : List (String × String)) (state : JSValue) :
    ((lookup LOCAL_KEY localStorage = none ∨ lookup LOCAL_KEY localStorage = some "") →
        loadState localStorage state = .ok state) ∧
      (∀ raw, lookup LOCAL_KEY localStorage = some raw → raw ≠ "" →
        loadState localStorage state = JSON.parse raw) ∧
      ∀ e, loadState localStorage state = .error e → e = .syntaxError := by
  refine ⟨?_, ?_, ?_⟩
  · rintro (h | h) <;> simp [loadState, h]
  · intro raw h hne
    simp [loadState, h, hne]
  · intro e he
    unfold loadState at he
    cases hl : lookup LOCAL_KEY localStorage with
    | none => simp [hl] at he
    | some raw =>
      rw [hl] at he
      dsimp only at he
      by_cases hraw : raw = ""
      · simp [hraw] at he
      · rw [if_neg hraw] at he
        cases e with
        | syntaxError => rfl
        | rangeError => exact absurd he (JSON.parse_ne_rangeError raw)

/-- C8, amended, at start-up: with an empty storage `loadState` returns and the
state is the default initial state; with the snapshot of the default initial
state stored, the state after `loadState` is that state again. -/
theorem loadState_outcome_witness :
    lookup LOCAL_KEY ([] : List (String × String)) = none ∧
      loadState [] defaultState.toValue = .ok defaultState.toValue ∧
      loadState [(LOCAL_KEY, defaultSnapshot)] JSValue.null = .ok defaultState.toValue :=
  ⟨rfl, (loadState_outcome [] defaultState.toValue).1 (Or.inl rfl), by
    rw [(loadState_outcome [(LOCAL_KEY, defaultSnapshot)] JSValue.null).2.1 defaultSnapshot
      (by rfl) (by decide)]
    with_unfolding_all rfl⟩

/-- C9: a confirmed reset sets the cash to `STARTING_USD`, which is 10000,
empties `holdings` and `history` (and the price cache), and keeps the currency
that was selected before the reset; the price refresh that follows the reset
changes none of these. -/
theorem resetDemo_confirmed (state : State) :
    resetDemo state true =
        { cash := STARTING_USD, holdings := [], history := [], lastPrices := [],
          currency := state.currency } ∧
      STARTING_USD = 10000 ∧
      ∀ data : List Coin,
        (loadMarket (resetDemo state true) data).cash = 10000 ∧
        (loadMarket (resetDemo state true) data).holdings = [] ∧
        (loadMarket (resetDemo state true) data).history = [] ∧
        (loadMarket (resetDemo state true) data).currency = state.currency := by
  refine ⟨by simp [resetDemo], rfl, ?_⟩
  intro data
  simp [loadMarket, resetDemo, STARTING_USD]

/-- C10: the portfolio value shown by `renderBalances` is the sum over the
entries of `holdings` of `qty * price`, the price being the entry of
`lastPrices` for the asset and `0` when there is none; it is determined by
`holdings` and `lastPrices` alone, and `renderBalances` returns the state
(cash, holdings, history, lastPrices, currency) as it received it. -/
theorem renderBalances_portfolioValue (state : State) :
    (renderBalances state).2.portfolioValue = holdingsValue state.holdings state.lastPrices ∧
      (renderBalances state).1 = state ∧
      ∀ (id : String) (h : Holding) (rest : List (String × Holding)),
        lookup id state.lastPrices = none →
          holdingsValue ((id, h) :: rest) state.lastPrices =
            holdingsValue rest state.lastPrices := by
  refine ⟨?_, rfl, ?_⟩
  · simp only [renderBalances]
    rw [portfolioLoop_fst]
    simp
  · intro id h rest hnone
    simp [holdingsValue, priceOrZero, hnone]

end CryptoDemo
